import Mathlib

/-!
Verification of the profiler session service (src/services/profilerService.ts).

The development embeds, over `List Char`, the regex-based XEvent payload
parser `parseXEventData`, the merge/retention step of `pollEvents`
(lines 422-439), and the lifecycle operations of `ProfilerService`
(`startSession`, `pauseSession`, `resumeSession`, `stopSession`,
`dropSession`).  Remote SQL commands are modelled by boolean outcome
parameters plus a count of issued commands.
-/

namespace Profiler

abbrev Chars := List Char

/-! ## Regex literals used by `parseXEventData`

The source matches events with
`/<event name="([^"]+)"[^>]*?timestamp="([^"]+)"[^>]*?>(.*?)<\/event>/gs`
and extracts fields with similar patterns.  Each pattern is anchored on a
fixed literal; the literals are listed here. -/

def evLit : Chars := "<event name=\"".toList

def tsLit : Chars := "timestamp=\"".toList

def endLit : Chars := "</event>".toList

def dataLit : Chars := "<data name=\"".toList

def actionLit : Chars := "<action name=\"".toList

def valueOpen : Chars := "<value>".toList

def valueClose : Chars := "</value>".toList

def textOpen : Chars := "<text>".toList

def textClose : Chars := "</text>".toList

/-- The characters `timestamp=` (the timestamp literal without its quote). -/
def tsEq : Chars := "timestamp=".toList

def textSuffix : Chars := "_text".toList

/-! ## Scanner primitives

`startsWithLit l s` is `l` being a literal prefix of `s`; `splitFirst l s`
finds the first (leftmost) occurrence of the literal `l` in `s` and returns
the part before it and the part after it, exactly as a regex engine anchors
a pattern that begins with a literal. -/

def startsWithLit : Chars → Chars → Bool
  | [], _ => true
  | _ :: _, [] => false
  | a :: l, b :: s => a = b && startsWithLit l s

def splitFirst (l : Chars) : Chars → Option (Chars × Chars)
  | [] => none
  | c :: s =>
    if startsWithLit l (c :: s) then some ([], (c :: s).drop l.length)
    else
      match splitFirst l s with
      | some (pre, post) => some (c :: pre, post)
      | none => none

/-- Step for `([^"]+)"`: the (nonempty) run of non-quote characters, the
closing quote, and the remainder after the quote; `none` when the `+` or
the quote fails (no backtracking helps: every shorter run is also followed
by a non-quote character). -/
def expectQuoted (s : Chars) : Option (Chars × Chars) :=
  match s.dropWhile (fun c => c ≠ '"') with
  | [] => none
  | _ :: r =>
    let cap := s.takeWhile (fun c => c ≠ '"')
    if cap.isEmpty then none else some (cap, r)

/-- Step for the lazy `[^>]*?>`: the run of non-`>` characters and the
remainder after the first `>`; `none` when no `>` is left. -/
def expectGt (s : Chars) : Option (Chars × Chars) :=
  match s.dropWhile (fun c => c ≠ '>') with
  | [] => none
  | _ :: r => some (s.takeWhile (fun c => c ≠ '>'), r)

/-- First successful match of `LIT([^"]+)"` anywhere in the string: the
JS regex engine tries each start position from the left and, when the
capture after an occurrence of the literal fails, continues from the next
position.  Used for the inner `nameMatch` and `timestampMatch` regexes. -/
def findCapture (l : Chars) : Chars → Option Chars
  | [] => none
  | c :: s =>
    Option.orElse
      (if startsWithLit l (c :: s) then
        (expectQuoted ((c :: s).drop l.length)).map (fun p => p.1)
      else none)
      (fun _ => findCapture l s)

/-- After the literal `timestamp="` inside the outer event regex: matches
`([^"]+)"[^>]*?>(.*?)</event>` and returns the consumed characters together
with the remainder of the input.  `[^>]*?>` consumes through the first `>`
and `(.*?)</event>` through the first `</event>` (the `s` flag makes `.`
match newlines, hence any character). -/
def tsTail (r : Chars) : Option (Chars × Chars) :=
  (expectQuoted r).bind (fun p =>
    (expectGt p.2).bind (fun q =>
      (splitFirst endLit q.2).map (fun b =>
        (p.1 ++ '"' :: q.1 ++ '>' :: b.1 ++ endLit, b.2))))

/-- The `[^>]*?timestamp="…` part of the outer event regex: the lazy
`[^>]*?` consumes non-`>` characters one at a time; at each position the
engine first tries the `timestamp="` literal and its continuation, and on
failure consumes one more character (failing for good at `>` or at the end
of input). -/
def matchAfterName : Chars → Option (Chars × Chars)
  | [] => none
  | c :: s =>
    Option.orElse
      (if startsWithLit tsLit (c :: s) then
        (tsTail ((c :: s).drop tsLit.length)).map (fun pr => (tsLit ++ pr.1, pr.2))
      else none)
      (fun _ =>
        if c = '>' then none
        else (matchAfterName s).map (fun pr => (c :: pr.1, pr.2)))

/-- Attempt of the outer event regex at a candidate start, with the literal
`<event name="` already consumed: `([^"]+)"` then `matchAfterName`.
Returns the matched characters after the literal plus the remainder. -/
def tryEventTail (r : Chars) : Option (Chars × Chars) :=
  (expectQuoted r).bind (fun p =>
    (matchAfterName p.2).map (fun m => (p.1 ++ '"' :: m.1, m.2)))

/-! ## The global event scan

`xmlData.match(/<event name="…/gs)` returns the list of full match strings,
scanning left to right and continuing after each match (and from the next
position after a failed candidate).  The recursion is fuelled by the input
length so that it stays structural (and computable by the kernel); every
step strictly consumes input, so `s.length` fuel always suffices. -/

def scanEventsF : Nat → Chars → List Chars
  | 0, _ => []
  | fuel + 1, s =>
    ((splitFirst evLit s).map (fun pr =>
      ((tryEventTail pr.2).map (fun mr =>
        (evLit ++ mr.1) :: scanEventsF fuel mr.2)).getD
        (scanEventsF fuel pr.2))).getD []

def scanEvents (s : Chars) : List Chars := scanEventsF s.length s

/-- Global `matchAll` of
`/<HEAD name="([^"]+)"[^>]*?>[\s\S]*?OPEN([\s\S]*?)CLOSE/g`:
one attempt per candidate (an occurrence of the head literal): capture a
name, consume through the first `>`, the first `OPEN`, the first `CLOSE`;
on failure the scan resumes after the head literal of the candidate,
on success after the full match. -/
def fieldTail (opn cls : Chars) (r : Chars) : Option (Chars × Chars × Chars) :=
  (expectQuoted r).bind (fun p =>
    (expectGt p.2).bind (fun q =>
      (splitFirst opn q.2).bind (fun o =>
        (splitFirst cls o.2).map (fun v => (p.1, v.1, v.2)))))

def fieldMatchesF (headLit opn cls : Chars) : Nat → Chars → List (Chars × Chars)
  | 0, _ => []
  | fuel + 1, s =>
    ((splitFirst headLit s).map (fun pr =>
      ((fieldTail opn cls pr.2).map (fun w =>
        (w.1, w.2.1) :: fieldMatchesF headLit opn cls fuel w.2.2)).getD
        (fieldMatchesF headLit opn cls fuel pr.2))).getD []

def fieldMatches (headLit opn cls : Chars) (s : Chars) : List (Chars × Chars) :=
  fieldMatchesF headLit opn cls s.length s

/-! ## Event records and value maps

`ProfilerEvent` is declared in src/models/profilerTypes.ts, which is not
part of the sources here; its fields (`name`, `timestamp`, `values`) are
exactly the ones the service constructs at lines 468-472.  The open
`values` object is modelled as an association list with JS object-property
semantics: assigning to an existing key replaces the value in place,
assigning to a fresh key appends it. -/

structure ProfilerEvent where
  name : Chars
  timestamp : Chars
  values : List (Chars × Chars)
deriving DecidableEq, Repr

def setValue (vs : List (Chars × Chars)) (k v : Chars) : List (Chars × Chars) :=
  if vs.any (fun p => p.1 = k) then vs.map (fun p => if p.1 = k then (k, v) else p)
  else vs ++ [(k, v)]

def getValue (vs : List (Chars × Chars)) (k : Chars) : Option Chars :=
  (vs.find? (fun p => p.1 = k)).map (fun p => p.2)

/-- JS `String.prototype.trim()`: strip whitespace at both ends. -/
def trimChars (s : Chars) : Chars :=
  ((s.dropWhile (fun c => c.isWhitespace)).reverse.dropWhile (fun c => c.isWhitespace)).reverse

/-- JS `parseInt(s)` for the decimal strings that appear as `database_id`
values: skip leading whitespace, optional sign, then the longest digit
prefix; `none` when there is no digit (`NaN`). -/
def parseIntJs (s : Chars) : Option Int :=
  let s1 := s.dropWhile (fun c => c.isWhitespace)
  let signed : Int × Chars :=
    match s1 with
    | '-' :: r => (-1, r)
    | '+' :: r => (1, r)
    | _ => (1, s1)
  let ds := signed.2.takeWhile (fun c => c.isDigit)
  if ds.isEmpty then none
  else some (signed.1 * (ds.foldl (fun a c => a * 10 + (c.toNat - '0'.toNat)) 0 : Nat))

/-- The data-field loop (and the structurally identical action-field loop):
each match assigns `values[name] = value.trim()`. -/
def applyFields (vs : List (Chars × Chars)) (ms : List (Chars × Chars)) :
    List (Chars × Chars) :=
  ms.foldl (fun acc p => setValue acc p.1 (trimChars p.2)) vs

/-- The text-field loop: each match assigns
`values[name + "_text"] = text.trim()`. -/
def applyTextFields (vs : List (Chars × Chars)) (ms : List (Chars × Chars)) :
    List (Chars × Chars) :=
  ms.foldl (fun acc p => setValue acc (p.1 ++ textSuffix) (trimChars p.2)) vs

def dbNameKey : Chars := "database_name".toList

def dbIdKey : Chars := "database_id".toList

/-- JS truthiness of `event.values[k]`: falsy when the key is absent or
holds the empty string. -/
def jsFalsyStr (v : Option Chars) : Bool :=
  match v with
  | none => true
  | some [] => true
  | some (_ :: _) => false

def lookupDb (lk : List (Int × Chars)) (i : Int) : Option Chars :=
  (lk.find? (fun p => p.1 = i)).map (fun p => p.2)

/-- Lines 507-512: if `database_name` is falsy and `database_id` is truthy,
parse the id and, when the lookup table has it, set `database_name`. -/
def enrichDb (lk : List (Int × Chars)) (vs : List (Chars × Chars)) :
    List (Chars × Chars) :=
  if jsFalsyStr (getValue vs dbNameKey) && !jsFalsyStr (getValue vs dbIdKey) then
    match getValue vs dbIdKey with
    | none => vs
    | some dv =>
      match parseIntJs dv with
      | none => vs
      | some i =>
        match lookupDb lk i with
        | none => vs
        | some nm => setValue vs dbNameKey nm
  else vs

/-- Per-match body of the event loop (lines 462-515): re-extract name and
timestamp from the match string with the inner regexes, then run the
data-, action- and text-field loops and the database-name enrichment. -/
def parseEventMatch (lk : List (Int × Chars)) (m : Chars) : Option ProfilerEvent :=
  match findCapture evLit m, findCapture tsLit m with
  | some n, some t =>
    let vs0 := applyFields [] (fieldMatches dataLit valueOpen valueClose m)
    let vs1 := applyFields vs0 (fieldMatches actionLit valueOpen valueClose m)
    let vs2 := applyTextFields vs1 (fieldMatches dataLit textOpen textClose m)
    some { name := n, timestamp := t, values := enrichDb lk vs2 }
  | _, _ => none

/-- `parseXEventData` (lines 452-538): global event scan, then one event
per match that yields both a name and a timestamp. -/
def parseXEventData (xmlData : Chars) (lk : List (Int × Chars)) :
    List ProfilerEvent :=
  (scanEvents xmlData).filterMap (parseEventMatch lk)

/-! ## The merge / retention step of `pollEvents` (lines 422-439)

New events are filtered against the timestamps already present, prepended
with `unshift`, and the list is truncated with `slice(-maxEvents)` when it
exceeds `maxEvents`.  JS `slice(-n)` keeps the LAST `n` elements for
`n ≥ 1`; `slice(-0)` is `slice(0)`, the whole array. -/

def mergeEvents (events newEvents : List ProfilerEvent) (maxEvents : Nat) :
    List ProfilerEvent :=
  let uniqueNewEvents :=
    newEvents.filter (fun e => !events.any (fun x => x.timestamp = e.timestamp))
  if uniqueNewEvents.isEmpty then events
  else
    let merged := uniqueNewEvents ++ events
    if maxEvents < merged.length then
      if maxEvents = 0 then merged else merged.drop (merged.length - maxEvents)
    else merged

/-- One poll tick for a session's event list: a tick that fails or yields
no payload leaves the list unchanged (the catch branch and the
`if (result.recordset …)` / `if (xmlData)` guards); otherwise the payload
is parsed and merged. -/
def pollTick (events : List ProfilerEvent) (lk : List (Int × Chars))
    (payload : Option Chars) (maxEvents : Nat) : List ProfilerEvent :=
  match payload with
  | none => events
  | some x => if x.isEmpty then events else mergeEvents events (parseXEventData x lk) maxEvents

/-! ## Lifecycle state machine -/

/-- The `SessionState` enum of src/src/models/mssqlApi.ts (line 266):
`Stopped`, `Starting`, `Running`, `Stopping`, `Paused`.  The service only
ever assigns `Stopped`, `Running` and `Paused`, but the type has all five
members. -/
inductive SessionState
  | Stopped
  | Starting
  | Running
  | Stopping
  | Paused
deriving DecidableEq, Repr

/-- The per-session tracking object (`ProfilerSession`), restricted to the
fields the service reads or writes; connection data is reduced to the
`isAzure` flag (it only selects the SQL text of remote commands). -/
structure ProfilerSession where
  name : Chars
  isAzure : Bool
  state : SessionState
  events : List ProfilerEvent
  databaseLookup : List (Int × Chars)
  startedAt : Option Nat := none
  stoppedAt : Option Nat := none
deriving DecidableEq, Repr

/-- The mutable service state: `activeSessions` (a `Map` keyed by session
name) and `pollingIntervals` (a `Map` from session name to timer handle,
modelled by the set of keys). -/
structure ServiceState where
  activeSessions : List (Chars × ProfilerSession)
  pollingIntervals : List Chars
deriving DecidableEq, Repr

inductive OpError
  | sessionNotFound
  | sessionNotPaused
  | remoteCommandFailed
deriving DecidableEq, Repr

inductive OpOutcome
  | ok
  | failed (e : OpError)
deriving DecidableEq, Repr

/-- Result of a lifecycle operation: thrown error or success, the service
state after the call (mutations before a throw are kept, as in the source),
and the number of remote commands issued. -/
structure OpResult where
  outcome : OpOutcome
  state : ServiceState
  cmds : Nat
deriving DecidableEq, Repr

def getSession (st : ServiceState) (name : Chars) : Option ProfilerSession :=
  (st.activeSessions.find? (fun p => p.1 = name)).map (fun p => p.2)

/-- In the source the session object obtained from the map is mutated in
place; here the map entry is updated. -/
def setSession (st : ServiceState) (name : Chars) (s : ProfilerSession) :
    ServiceState :=
  { st with activeSessions :=
      st.activeSessions.map (fun p => if p.1 = name then (name, s) else p) }

def removeSession (st : ServiceState) (name : Chars) : ServiceState :=
  { st with activeSessions := st.activeSessions.filter (fun p => !(p.1 = name)) }

/-- `startPolling`: `pollingIntervals.set(name, interval)`. -/
def startPolling (st : ServiceState) (name : Chars) : ServiceState :=
  if st.pollingIntervals.any (fun k => k = name) then st
  else { st with pollingIntervals := st.pollingIntervals ++ [name] }

/-- `stopPolling`: clear the timer and delete the map entry. -/
def stopPolling (st : ServiceState) (name : Chars) : ServiceState :=
  { st with pollingIntervals := st.pollingIntervals.filter (fun k => !(k = name)) }

def pollingActive (st : ServiceState) (name : Chars) : Bool :=
  st.pollingIntervals.any (fun k => k = name)

/-- `startSession` (lines 159-184): look up the session, issue the remote
START command, and on success set `Running`, record `startedAt` and start
polling.  There is no check of the current state.  `remoteOk` is the
outcome of the remote command. -/
def startSession (st : ServiceState) (name : Chars) (remoteOk : Bool)
    (now : Nat) : OpResult :=
  match getSession st name with
  | none => ⟨.failed .sessionNotFound, st, 0⟩
  | some s =>
    if remoteOk then
      let st1 := setSession st name { s with state := .Running, startedAt := some now }
      ⟨.ok, startPolling st1 name, 1⟩
    else ⟨.failed .remoteCommandFailed, st, 1⟩

/-- `pauseSession` (lines 189-200): look up the session, stop polling and
set `Paused`.  No remote command and no check of the current state. -/
def pauseSession (st : ServiceState) (name : Chars) : OpResult :=
  match getSession st name with
  | none => ⟨.failed .sessionNotFound, st, 0⟩
  | some s =>
    let st1 := stopPolling st name
    ⟨.ok, setSession st1 name { s with state := .Paused }, 0⟩

/-- `resumeSession` (lines 205-219): fails unless the state is `Paused`;
otherwise sets `Running` and restarts polling.  No remote command. -/
def resumeSession (st : ServiceState) (name : Chars) : OpResult :=
  match getSession st name with
  | none => ⟨.failed .sessionNotFound, st, 0⟩
  | some s =>
    if s.state = .Paused then
      let st1 := setSession st name { s with state := .Running }
      ⟨.ok, startPolling st1 name, 0⟩
    else ⟨.failed .sessionNotPaused, st, 0⟩

/-- `stopSession` (lines 224-249): stop polling FIRST, then issue the
remote STOP command; on success set `Stopped` and record `stoppedAt`; on a
remote failure the polling map keeps the deletion. -/
def stopSession (st : ServiceState) (name : Chars) (remoteOk : Bool)
    (now : Nat) : OpResult :=
  match getSession st name with
  | none => ⟨.failed .sessionNotFound, st, 0⟩
  | some s =>
    let st1 := stopPolling st name
    if remoteOk then
      ⟨.ok, setSession st1 name { s with state := .Stopped, stoppedAt := some now }, 1⟩
    else ⟨.failed .remoteCommandFailed, st1, 1⟩

/-- `dropSession` (lines 254-280): when `Running`, first run `stopSession`
(whose failure aborts, keeping its mutations); then issue the remote DROP
command and on success delete the registry entry. -/
def dropSession (st : ServiceState) (name : Chars) (stopOk dropOk : Bool)
    (now : Nat) : OpResult :=
  match getSession st name with
  | none => ⟨.failed .sessionNotFound, st, 0⟩
  | some s =>
    if s.state = .Running then
      let r := stopSession st name stopOk now
      match r.outcome with
      | .failed e => ⟨.failed e, r.state, r.cmds⟩
      | .ok =>
        if dropOk then ⟨.ok, removeSession r.state name, r.cmds + 1⟩
        else ⟨.failed .remoteCommandFailed, r.state, r.cmds + 1⟩
    else
      if dropOk then ⟨.ok, removeSession st name, 1⟩
      else ⟨.failed .remoteCommandFailed, st, 1⟩

/-! ## Structured payloads for the parser theorems

For the universally quantified parser claims the payload is rendered from
a list of structured elements: a well-formed event element
(`<event name="N" timestamp="T">B</event>`), an element lacking the
timestamp attribute (`<event name="N">B</event>`), and an element whose
timestamp attribute precedes its name attribute
(`<event timestamp="T" name="N">B</event>`). -/

def evStart : Chars := "<event ".toList

def nameLit : Chars := "name=\"".toList

inductive XElem
  | wf (n t b : Chars)
  | noTs (n b : Chars)
  | swapped (n t b : Chars)

def renderElem : XElem → Chars
  | .wf n t b => evLit ++ n ++ '"' :: ' ' :: tsLit ++ t ++ '"' :: '>' :: b ++ endLit
  | .noTs n b => evLit ++ n ++ '"' :: '>' :: b ++ endLit
  | .swapped n t b =>
      evStart ++ tsLit ++ t ++ '"' :: ' ' :: nameLit ++ n ++ '"' :: '>' :: b ++ endLit

def renderPayload (es : List XElem) : Chars := (es.map renderElem).flatten

/-- Characters allowed in attribute values and simple bodies: anything
except the three markup-significant characters. -/
def plainChar (c : Char) : Prop := c ≠ '"' ∧ c ≠ '<' ∧ c ≠ '>'

def Plain (s : Chars) : Prop := ∀ c ∈ s, plainChar c

instance (c : Char) : Decidable (plainChar c) :=
  inferInstanceAs (Decidable (_ ∧ _))

instance (s : Chars) : Decidable (Plain s) :=
  inferInstanceAs (Decidable (∀ c ∈ s, plainChar c))

/-- Well-formedness of a structured element: names and timestamps are
nonempty and plain, bodies are plain; the name of a well-formed event
additionally must not end in the characters `timestamp=` (otherwise the
inner `timestampMatch` regex finds an earlier occurrence inside the name
attribute and extracts a different timestamp). -/
def ElemOk : XElem → Prop
  | .wf n t b =>
      n ≠ [] ∧ Plain n ∧ (¬ ∃ pre, n = pre ++ tsEq) ∧ t ≠ [] ∧ Plain t ∧ Plain b
  | .noTs n b => n ≠ [] ∧ Plain n ∧ Plain b
  | .swapped n t b => n ≠ [] ∧ Plain n ∧ t ≠ [] ∧ Plain t ∧ Plain b

/-- The event record the service builds for a well-formed element with a
plain body (no field elements, hence an empty value map). -/
def elemEvent : XElem → Option ProfilerEvent
  | .wf n t _ => some ⟨n, t, []⟩
  | _ => none

/-- The outer-scan match string an element contributes: the full rendered
element for a well-formed one, nothing otherwise. -/
def wfRender : XElem → Option Chars
  | .wf n t b => some (renderElem (.wf n t b))
  | _ => none

/-- Payload with two events sharing one timestamp (both elements are
well-formed; the ring buffer can repeat a timestamp). -/
def dupTsPayload : Chars :=
  ("<event name=\"a\" timestamp=\"T1\"></event>" ++
   "<event name=\"b\" timestamp=\"T1\"></event>").toList

/-- Payload with two event elements carrying both attributes (distinct
timestamps `T1`, `T2`) and one element lacking the timestamp attribute; the
second event's name attribute ends in the characters `timestamp=`. -/
def c7BadPayload : Chars :=
  ("<event name=\"a\" timestamp=\"T1\"></event>" ++
   "<event name=\"bad\"></event>" ++
   "<event name=\"xtimestamp=\" timestamp=\"T2\"></event>").toList

/-- Payload whose first data field `q` carries a `<text>` sub-value while a
second data field is literally named `q_text`. -/
def textClashPayload : Chars :=
  ("<event name=\"ev\" timestamp=\"t1\">" ++
   "<data name=\"q\"><value>P</value><text>S</text></data>" ++
   "<data name=\"q_text\"><value>V</value></data></event>").toList

/-! ## Occurrence side conditions

`NoStart l x s` states that no nonempty suffix `x2` of `x` begins an
occurrence of the literal `l` in `x2 ++ s`: scanning `x ++ s` for `l`
cannot match at any position inside `x`. -/

def NoStart (l x s : Chars) : Prop :=
  ∀ x2 : Chars, x2 ≠ [] → x2 <:+ x → ¬ l <+: (x2 ++ s)

/-- `mismatchWithin l x` holds when `l` and `x` disagree at some position
before either is exhausted; then `l` is a prefix of no extension of `x`. -/
def mismatchWithin : Chars → Chars → Bool
  | a :: l, b :: x => if a = b then mismatchWithin l x else true
  | _, _ => false

/-- Decidable sufficient condition for `NoStart l x s` for every `s`: every
nonempty suffix of `x` has a mismatch with `l` within the overlap. -/
def suffixesOK (l : Chars) : Chars → Bool
  | [] => true
  | c :: x => mismatchWithin l (c :: x) && suffixesOK l x

end Profiler

namespace Profiler

/-! # Theorems -/

theorem splitFirst_length_lt (l : Chars) (hl : l ≠ []) :
    ∀ s pre post, splitFirst l s = some (pre, post) → post.length < s.length := by
  intro s
  induction s with
  | nil => intro pre post h; simp [splitFirst] at h
  | cons c s ih =>
    intro pre post h
    rw [splitFirst] at h
    by_cases hsw : startsWithLit l (c :: s) = true
    · simp only [hsw, if_true] at h
      cases h
      have : (c :: s).length - l.length < (c :: s).length := by
        apply Nat.sub_lt (by simp)
        cases l with
        | nil => exact absurd rfl hl
        | cons a l => simp
      simpa using this
    · simp only [hsw, if_false] at h
      cases hrec : splitFirst l s with
      | none => rw [hrec] at h; exact absurd h (by simp)
      | some pr =>
        rw [hrec] at h
        cases h
        have := ih pr.1 pr.2 (by rw [hrec])
        exact Nat.lt_succ_of_lt this

theorem dropWhile_length_le (p : Char → Bool) (s : Chars) :
    (s.dropWhile p).length ≤ s.length := by
  induction s with
  | nil => simp
  | cons c s ih =>
    rw [List.dropWhile]
    by_cases h : p c = true
    · simp only [h]; exact Nat.le_succ_of_le ih
    · simp only [Bool.not_eq_true] at h; simp [h]

theorem expectQuoted_length_lt (s : Chars) (cap r : Chars)
    (h : expectQuoted s = some (cap, r)) : r.length < s.length := by
  unfold expectQuoted at h
  split at h
  · simp at h
  · rename_i x r2 hdw
    simp only [] at h
    split at h
    · simp at h
    · simp only [Option.some.injEq, Prod.mk.injEq] at h
      rcases h with ⟨_, hr⟩
      subst hr
      have := dropWhile_length_le (fun c => c ≠ '"') s
      rw [hdw] at this
      simpa using Nat.lt_of_lt_of_le (Nat.lt_succ_self _) this

theorem expectGt_length_lt (s : Chars) (g r : Chars)
    (h : expectGt s = some (g, r)) : r.length < s.length := by
  unfold expectGt at h
  split at h
  · simp at h
  · rename_i x r2 hdw
    simp only [Option.some.injEq, Prod.mk.injEq] at h
    rcases h with ⟨_, hr⟩
    subst hr
    have := dropWhile_length_le (fun c => c ≠ '>') s
    rw [hdw] at this
    simpa using Nat.lt_of_lt_of_le (Nat.lt_succ_self _) this

theorem tsTail_length_le (r : Chars) (consumed rest : Chars)
    (h : tsTail r = some (consumed, rest)) : rest.length ≤ r.length := by
  unfold tsTail at h
  rw [Option.bind_eq_some'] at h
  obtain ⟨p, hp, h⟩ := h
  rw [Option.bind_eq_some'] at h
  obtain ⟨q, hq, h⟩ := h
  rw [Option.map_eq_some'] at h
  obtain ⟨b, hb, h⟩ := h
  have h1 := expectQuoted_length_lt r p.1 p.2 hp
  have h2 := expectGt_length_lt p.2 q.1 q.2 hq
  have h3 := splitFirst_length_lt endLit (by decide) q.2 b.1 b.2 hb
  have h4 : b.2 = rest := congrArg Prod.snd h
  subst h4
  omega

theorem matchAfterName_length_le :
    ∀ (s : Chars) consumed rest, matchAfterName s = some (consumed, rest) →
      rest.length ≤ s.length := by
  intro s
  induction s with
  | nil => intro consumed rest h; simp [matchAfterName] at h
  | cons c s ih =>
    intro consumed rest h
    rw [matchAfterName, Option.orElse_eq_some'] at h
    rcases h with h | ⟨_, h⟩
    · split at h
      · rw [Option.map_eq_some'] at h
        obtain ⟨pr, hpr, he⟩ := h
        have h1 := tsTail_length_le _ pr.1 pr.2 hpr
        have h2 : ((c :: s).drop tsLit.length).length = (c :: s).length - tsLit.length :=
          List.length_drop _ _
        have h3 : pr.2 = rest := congrArg Prod.snd he
        subst h3
        omega
      · simp at h
    · split at h
      · simp at h
      · rw [Option.map_eq_some'] at h
        obtain ⟨pr, hpr, he⟩ := h
        have h1 := ih pr.1 pr.2 hpr
        have h3 : pr.2 = rest := congrArg Prod.snd he
        subst h3
        exact Nat.le_succ_of_le h1

theorem tryEventTail_length_le (r : Chars) (m rest : Chars)
    (h : tryEventTail r = some (m, rest)) : rest.length ≤ r.length := by
  unfold tryEventTail at h
  rw [Option.bind_eq_some'] at h
  obtain ⟨p, hp, h⟩ := h
  rw [Option.map_eq_some'] at h
  obtain ⟨q, hq, he⟩ := h
  have h1 := expectQuoted_length_lt r p.1 p.2 hp
  have h2 := matchAfterName_length_le p.2 q.1 q.2 hq
  have h3 : q.2 = rest := congrArg Prod.snd he
  subst h3
  omega


theorem fieldTail_length_le (opn cls : Chars) (ho : opn ≠ []) (hc : cls ≠ []) (r : Chars)
    (n v rest : Chars) (h : fieldTail opn cls r = some (n, v, rest)) :
    rest.length < r.length := by
  unfold fieldTail at h
  rw [Option.bind_eq_some'] at h
  obtain ⟨p, hp, h⟩ := h
  rw [Option.bind_eq_some'] at h
  obtain ⟨q, hq, h⟩ := h
  rw [Option.bind_eq_some'] at h
  obtain ⟨o, hop, h⟩ := h
  rw [Option.map_eq_some'] at h
  obtain ⟨w, hw, he⟩ := h
  have h1 := expectQuoted_length_lt r p.1 p.2 hp
  have h2 := expectGt_length_lt p.2 q.1 q.2 hq
  have h3 := splitFirst_length_lt opn ho q.2 o.1 o.2 hop
  have h4 := splitFirst_length_lt cls hc o.2 w.1 w.2 hw
  have h5 : w.2 = rest := congrArg (fun t => t.snd.snd) he
  subst h5
  omega


/-! ### Prefix and occurrence lemmas -/

theorem startsWithLit_iff (l : Chars) : ∀ s, startsWithLit l s = true ↔ ∃ r, l ++ r = s := by
  induction l with
  | nil => intro s; simp [startsWithLit]
  | cons a l ih =>
    intro s
    cases s with
    | nil => simp [startsWithLit]
    | cons b s =>
      rw [startsWithLit]
      constructor
      · intro h
        rw [Bool.and_eq_true, decide_eq_true_iff] at h
        obtain ⟨r, hr⟩ := (ih s).mp h.2
        exact ⟨r, by rw [List.cons_append, hr, h.1]⟩
      · intro ⟨r, hr⟩
        rw [List.cons_append] at hr
        cases hr
        rw [Bool.and_eq_true, decide_eq_true_iff]
        exact ⟨rfl, (ih _).mpr ⟨r, rfl⟩⟩

theorem startsWithLit_asPre (l s : Chars) :
    startsWithLit l s = true ↔ l <+: s := by
  rw [startsWithLit_iff]
  constructor
  · intro ⟨r, hr⟩; exact ⟨r, hr⟩
  · intro ⟨r, hr⟩; exact ⟨r, hr⟩

theorem noStart_nil (l s : Chars) : NoStart l [] s := by
  intro x2 hne hsuf
  rw [List.suffix_nil] at hsuf
  exact absurd hsuf hne

theorem noStart_tail (l : Chars) (c : Char) (x s : Chars)
    (h : NoStart l (c :: x) s) : NoStart l x s := by
  intro x2 hne hsuf
  exact h x2 hne (hsuf.trans (List.suffix_cons c x))

theorem noStart_self (l x s : Chars) (h : NoStart l x s) (hne : x ≠ []) :
    ¬ l <+: (x ++ s) :=
  h x hne (List.suffix_refl x)

theorem noStart_append (l x y s : Chars) (hx : NoStart l x (y ++ s))
    (hy : NoStart l y s) : NoStart l (x ++ y) s := by
  intro x2 hne hsuf
  obtain ⟨t, ht⟩ := hsuf
  rcases List.append_eq_append_iff.mp ht with ⟨a, ha1, ha2⟩ | ⟨c, _, hc2⟩
  · by_cases hae : a = []
    · subst hae
      simp only [List.nil_append] at ha2
      subst ha2
      exact hy x2 hne (List.suffix_refl x2)
    · subst ha2
      rw [List.append_assoc]
      exact hx a hae ⟨t, ha1.symm⟩
  · exact hy x2 hne ⟨c, hc2.symm⟩

theorem not_prefix_of_mismatchWithin :
    ∀ (l x : Chars), mismatchWithin l x = true → ∀ s, ¬ l <+: (x ++ s) := by
  intro l
  induction l with
  | nil => intro x h; cases x <;> simp [mismatchWithin] at h
  | cons a l ih =>
    intro x h s hpre
    cases x with
    | nil => simp [mismatchWithin] at h
    | cons b x =>
      rw [mismatchWithin] at h
      rw [List.cons_append, List.cons_prefix_cons] at hpre
      by_cases hab : a = b
      · rw [if_pos hab] at h
        exact ih x h s hpre.2
      · exact hab hpre.1

theorem noStart_of_suffixesOK (l : Chars) :
    ∀ (x : Chars), suffixesOK l x = true → ∀ s, NoStart l x s := by
  intro x
  induction x with
  | nil => intro _ s; exact noStart_nil l s
  | cons c x ih =>
    intro h s x2 hne hsuf
    rw [suffixesOK, Bool.and_eq_true] at h
    rcases List.suffix_cons_iff.mp hsuf with heq | hsuf2
    · subst heq
      exact not_prefix_of_mismatchWithin l _ h.1 s
    · exact ih h.2 s x2 hne hsuf2

theorem noStart_of_ne_head (h : Char) (l x s : Chars) (hl : ∃ l2, l = h :: l2)
    (hx : ∀ c ∈ x, c ≠ h) : NoStart l x s := by
  intro x2 hne hsuf hpre
  obtain ⟨l2, rfl⟩ := hl
  cases x2 with
  | nil => exact hne rfl
  | cons d x2 =>
    rw [List.cons_append, List.cons_prefix_cons] at hpre
    have hd : d ∈ x := hsuf.subset (by simp)
    exact hx d hd hpre.1.symm

theorem noStart_plain (l x s : Chars) (hl : ∃ l2, l = '<' :: l2) (hx : Plain x) :
    NoStart l x s :=
  noStart_of_ne_head '<' l x s hl (fun c hc => (hx c hc).2.1)

/-! ### splitFirst and findCapture under occurrence conditions -/

theorem splitFirst_append_of_noStart (l x s : Chars) (h : NoStart l x s) :
    splitFirst l (x ++ s) = (splitFirst l s).map (fun pr => (x ++ pr.1, pr.2)) := by
  induction x with
  | nil =>
    simp only [List.nil_append]
    cases splitFirst l s with
    | none => simp
    | some pr => simp
  | cons c x ih =>
    rw [List.cons_append, splitFirst]
    have hnp : ¬ (startsWithLit l (c :: (x ++ s)) = true) := by
      rw [startsWithLit_asPre]
      simpa using noStart_self l (c :: x) s h (by simp)
    rw [if_neg hnp, ih (noStart_tail l c x s h)]
    cases splitFirst l s with
    | none => simp
    | some pr => simp

theorem splitFirst_self (l y : Chars) (hl : l ≠ []) :
    splitFirst l (l ++ y) = some ([], y) := by
  cases l with
  | nil => exact absurd rfl hl
  | cons a l =>
    rw [List.cons_append, splitFirst, if_pos]
    · rw [← List.cons_append, List.drop_left]
    · rw [startsWithLit_asPre, ← List.cons_append]
      exact List.prefix_append _ _

theorem splitFirst_occurrence (l x y : Chars) (hl : l ≠ [])
    (h : NoStart l x (l ++ y)) : splitFirst l (x ++ (l ++ y)) = some (x, y) := by
  rw [splitFirst_append_of_noStart l x (l ++ y) h, splitFirst_self l y hl]
  simp

theorem splitFirst_none_of_noStart (l x : Chars) (h : NoStart l x []) :
    splitFirst l x = none := by
  have h2 := splitFirst_append_of_noStart l x [] h
  simpa [splitFirst] using h2

theorem findCapture_append_of_noStart (l x s : Chars) (h : NoStart l x s) :
    findCapture l (x ++ s) = findCapture l s := by
  induction x with
  | nil => simp
  | cons c x ih =>
    rw [List.cons_append, findCapture]
    have hnp : ¬ (startsWithLit l (c :: (x ++ s)) = true) := by
      rw [startsWithLit_asPre]
      simpa using noStart_self l (c :: x) s h (by simp)
    rw [if_neg hnp]
    simp only [Option.orElse]
    exact ih (noStart_tail l c x s h)

theorem findCapture_here (a : Char) (l2 s cap r : Chars)
    (hq : expectQuoted s = some (cap, r)) :
    findCapture (a :: l2) ((a :: l2) ++ s) = some cap := by
  rw [List.cons_append, findCapture]
  have hsw : startsWithLit (a :: l2) (a :: (l2 ++ s)) = true := by
    rw [startsWithLit_asPre, ← List.cons_append]
    exact List.prefix_append _ _
  rw [if_pos hsw]
  have hdrop : (a :: (l2 ++ s)).drop (a :: l2).length = s := by
    rw [← List.cons_append, List.drop_left]
  rw [hdrop, hq]
  simp [Option.orElse]

/-! ### takeWhile / dropWhile stepping -/

theorem takeWhile_append_stop (p : Char → Bool) (x : Chars) (y : Char) (r : Chars)
    (hx : ∀ c ∈ x, p c = true) (hy : p y = false) :
    (x ++ y :: r).takeWhile p = x := by
  induction x with
  | nil => simp [List.takeWhile_cons, hy]
  | cons c x ih =>
    rw [List.cons_append, List.takeWhile_cons, hx c (by simp)]
    simp only [if_true]
    rw [ih (fun c hc => hx c (by simp [hc]))]

theorem dropWhile_append_stop (p : Char → Bool) (x : Chars) (y : Char) (r : Chars)
    (hx : ∀ c ∈ x, p c = true) (hy : p y = false) :
    (x ++ y :: r).dropWhile p = y :: r := by
  induction x with
  | nil => simp [List.dropWhile_cons, hy]
  | cons c x ih =>
    rw [List.cons_append, List.dropWhile_cons, hx c (by simp)]
    simp only [if_true]
    exact ih (fun c hc => hx c (by simp [hc]))

theorem expectQuoted_eval (x r : Chars) (hx : ∀ c ∈ x, c ≠ '"') (hne : x ≠ []) :
    expectQuoted (x ++ '"' :: r) = some (x, r) := by
  unfold expectQuoted
  rw [dropWhile_append_stop _ x '"' r (fun c hc => by simp [hx c hc]) (by simp)]
  rw [takeWhile_append_stop _ x '"' r (fun c hc => by simp [hx c hc]) (by simp)]
  simp [hne]

theorem expectGt_eval (x r : Chars) (hx : ∀ c ∈ x, c ≠ '>') :
    expectGt (x ++ '>' :: r) = some (x, r) := by
  unfold expectGt
  rw [dropWhile_append_stop _ x '>' r (fun c hc => by simp [hx c hc]) (by simp)]
  rw [takeWhile_append_stop _ x '>' r (fun c hc => by simp [hx c hc]) (by simp)]

/-! ### matchAfterName stepping -/

theorem matchAfterName_step (c : Char) (s : Chars)
    (hc1 : startsWithLit tsLit (c :: s) = false) (hc2 : c ≠ '>') :
    matchAfterName (c :: s) = (matchAfterName s).map (fun pr => (c :: pr.1, pr.2)) := by
  rw [matchAfterName, if_neg (by simp [hc1])]
  simp [Option.orElse, hc2]

theorem matchAfterName_gt (s : Chars)
    (hc1 : startsWithLit tsLit ('>' :: s) = false) :
    matchAfterName ('>' :: s) = none := by
  rw [matchAfterName, if_neg (by simp [hc1])]
  simp [Option.orElse]

theorem matchAfterName_eval (s2 : Chars) (res : Chars × Chars)
    (h : tsTail s2 = some res) :
    matchAfterName (tsLit ++ s2) = some (tsLit ++ res.1, res.2) := by
  have heq : tsLit ++ s2 = 't' :: ("imestamp=\"".toList ++ s2) := rfl
  have hsw : startsWithLit tsLit ('t' :: ("imestamp=\"".toList ++ s2)) = true := by
    rw [startsWithLit_asPre, ← heq]
    exact List.prefix_append _ _
  have hdrop : ('t' :: ("imestamp=\"".toList ++ s2)).drop tsLit.length = s2 := by
    rw [← heq]
    exact List.drop_left' rfl
  rw [heq, matchAfterName, if_pos hsw, hdrop, h]
  simp [Option.orElse]

/-! ### Fuel irrelevance and one-step equations for the global scans -/

theorem scanEventsF_irrel :
    ∀ (f1 : Nat) (s : Chars) (f2 : Nat), s.length ≤ f1 → s.length ≤ f2 →
      scanEventsF f1 s = scanEventsF f2 s := by
  intro f1
  induction f1 with
  | zero =>
    intro s f2 h1 _
    have hs : s = [] := List.eq_nil_of_length_eq_zero (Nat.le_zero.mp h1)
    subst hs
    cases f2 <;> simp [scanEventsF, splitFirst]
  | succ f1 ih =>
    intro s f2 h1 h2
    cases f2 with
    | zero =>
      have hs : s = [] := List.eq_nil_of_length_eq_zero (Nat.le_zero.mp h2)
      subst hs
      simp [scanEventsF, splitFirst]
    | succ f2 =>
      rw [scanEventsF, scanEventsF]
      cases hsp : splitFirst evLit s with
      | none => rfl
      | some pr =>
        have hr : pr.2.length < s.length :=
          splitFirst_length_lt evLit (by decide) s pr.1 pr.2 hsp
        simp only [Option.map_some, Option.map_some', Option.getD_some]
        cases htr : tryEventTail pr.2 with
        | none =>
          simp only [Option.map_none, Option.map_none', Option.getD_none]
          exact ih pr.2 f2 (by omega) (by omega)
        | some mr =>
          have hrest : mr.2.length ≤ pr.2.length :=
            tryEventTail_length_le pr.2 mr.1 mr.2 htr
          simp only [Option.map_some, Option.map_some', Option.getD_some]
          rw [ih mr.2 f2 (by omega) (by omega)]

theorem scanEvents_none (s : Chars) (h : splitFirst evLit s = none) :
    scanEvents s = [] := by
  unfold scanEvents
  cases hs : s.length with
  | zero => simp [scanEventsF]
  | succ k => rw [scanEventsF, h]; rfl

theorem scanEvents_fail (s pre r : Chars) (h : splitFirst evLit s = some (pre, r))
    (h2 : tryEventTail r = none) : scanEvents s = scanEvents r := by
  unfold scanEvents
  cases hs : s.length with
  | zero =>
    have hnil : s = [] := List.eq_nil_of_length_eq_zero hs
    subst hnil
    simp [splitFirst] at h
  | succ k =>
    rw [scanEventsF, h]
    have hr : r.length < s.length := splitFirst_length_lt evLit (by decide) s pre r h
    simp only [Option.map_some, Option.map_some', Option.getD_some, h2,
      Option.map_none, Option.map_none', Option.getD_none]
    exact scanEventsF_irrel k r r.length (by omega) (by omega)

theorem scanEvents_hit (s pre r m rest : Chars)
    (h : splitFirst evLit s = some (pre, r))
    (h2 : tryEventTail r = some (m, rest)) :
    scanEvents s = (evLit ++ m) :: scanEvents rest := by
  unfold scanEvents
  cases hs : s.length with
  | zero =>
    have hnil : s = [] := List.eq_nil_of_length_eq_zero hs
    subst hnil
    simp [splitFirst] at h
  | succ k =>
    rw [scanEventsF, h]
    have hr : r.length < s.length := splitFirst_length_lt evLit (by decide) s pre r h
    have hrest : rest.length ≤ r.length := tryEventTail_length_le r m rest h2
    simp only [Option.map_some, Option.map_some', Option.getD_some, h2]
    rw [scanEventsF_irrel k rest rest.length (by omega) (by omega)]

theorem fieldMatchesF_irrel (headLit opn cls : Chars) (hh : headLit ≠ [])
    (ho : opn ≠ []) (hc : cls ≠ []) :
    ∀ (f1 : Nat) (s : Chars) (f2 : Nat), s.length ≤ f1 → s.length ≤ f2 →
      fieldMatchesF headLit opn cls f1 s = fieldMatchesF headLit opn cls f2 s := by
  intro f1
  induction f1 with
  | zero =>
    intro s f2 h1 _
    have hs : s = [] := List.eq_nil_of_length_eq_zero (Nat.le_zero.mp h1)
    subst hs
    cases f2 <;> simp [fieldMatchesF, splitFirst]
  | succ f1 ih =>
    intro s f2 h1 h2
    cases f2 with
    | zero =>
      have hs : s = [] := List.eq_nil_of_length_eq_zero (Nat.le_zero.mp h2)
      subst hs
      simp [fieldMatchesF, splitFirst]
    | succ f2 =>
      rw [fieldMatchesF, fieldMatchesF]
      cases hsp : splitFirst headLit s with
      | none => rfl
      | some pr =>
        have hr : pr.2.length < s.length :=
          splitFirst_length_lt headLit hh s pr.1 pr.2 hsp
        simp only [Option.map_some, Option.map_some', Option.getD_some]
        cases htr : fieldTail opn cls pr.2 with
        | none =>
          simp only [Option.map_none, Option.map_none', Option.getD_none]
          exact ih pr.2 f2 (by omega) (by omega)
        | some w =>
          have hrest : w.2.2.length < pr.2.length :=
            fieldTail_length_le opn cls ho hc pr.2 w.1 w.2.1 w.2.2 htr
          simp only [Option.map_some, Option.map_some', Option.getD_some]
          rw [ih w.2.2 f2 (by omega) (by omega)]

theorem fieldMatches_none (headLit opn cls : Chars) (s : Chars)
    (h : splitFirst headLit s = none) : fieldMatches headLit opn cls s = [] := by
  unfold fieldMatches
  cases hs : s.length with
  | zero => simp [fieldMatchesF]
  | succ k => rw [fieldMatchesF, h]; rfl

theorem fieldMatches_fail (headLit opn cls : Chars) (hh : headLit ≠ [])
    (ho : opn ≠ []) (hc : cls ≠ []) (s pre r : Chars)
    (h : splitFirst headLit s = some (pre, r)) (h2 : fieldTail opn cls r = none) :
    fieldMatches headLit opn cls s = fieldMatches headLit opn cls r := by
  unfold fieldMatches
  cases hs : s.length with
  | zero =>
    have hnil : s = [] := List.eq_nil_of_length_eq_zero hs
    subst hnil
    simp [splitFirst] at h
  | succ k =>
    rw [fieldMatchesF, h]
    have hr : r.length < s.length := splitFirst_length_lt headLit hh s pre r h
    simp only [Option.map_some, Option.map_some', Option.getD_some, h2,
      Option.map_none, Option.map_none', Option.getD_none]
    exact fieldMatchesF_irrel headLit opn cls hh ho hc k r r.length (by omega) (by omega)

theorem fieldMatches_hit (headLit opn cls : Chars) (hh : headLit ≠ [])
    (ho : opn ≠ []) (hc : cls ≠ []) (s pre r n v rest : Chars)
    (h : splitFirst headLit s = some (pre, r))
    (h2 : fieldTail opn cls r = some (n, v, rest)) :
    fieldMatches headLit opn cls s = (n, v) :: fieldMatches headLit opn cls rest := by
  unfold fieldMatches
  cases hs : s.length with
  | zero =>
    have hnil : s = [] := List.eq_nil_of_length_eq_zero hs
    subst hnil
    simp [splitFirst] at h
  | succ k =>
    rw [fieldMatchesF, h]
    have hr : r.length < s.length := splitFirst_length_lt headLit hh s pre r h
    have hrest : rest.length < r.length := fieldTail_length_le opn cls ho hc r n v rest h2
    simp only [Option.map_some, Option.map_some', Option.getD_some, h2]
    rw [fieldMatchesF_irrel headLit opn cls hh ho hc k rest rest.length
      (by omega) (by omega)]

/-- A string with no occurrence of the head literal yields no field
matches. -/
theorem fieldMatches_nil (headLit opn cls : Chars) (s : Chars)
    (h : NoStart headLit s []) : fieldMatches headLit opn cls s = [] :=
  fieldMatches_none headLit opn cls s (splitFirst_none_of_noStart headLit s h)

/-! ### Concrete literal facts -/

theorem evLit_eq : evLit = '<' :: "event name=\"".toList := rfl

theorem tsLit_eq : tsLit = 't' :: "imestamp=\"".toList := rfl

theorem startsWithLit_cons_ne (a b : Char) (l s : Chars) (h : a ≠ b) :
    startsWithLit (a :: l) (b :: s) = false := by
  simp [startsWithLit]
  intro hab
  exact absurd hab h

/-! ### Evaluation of the match attempt on rendered elements -/

theorem tsTail_eval (t b S : Chars) (ht : ∀ c ∈ t, c ≠ '"') (hte : t ≠ [])
    (hb : ∀ c ∈ b, c ≠ '<') :
    tsTail (t ++ '"' :: '>' :: (b ++ (endLit ++ S))) =
      some (t ++ '"' :: '>' :: (b ++ endLit), S) := by
  unfold tsTail
  rw [expectQuoted_eval t ('>' :: (b ++ (endLit ++ S))) ht hte]
  have hgt : expectGt ('>' :: (b ++ (endLit ++ S))) = some ([], b ++ (endLit ++ S)) := by
    have := expectGt_eval [] (b ++ (endLit ++ S)) (by simp)
    simpa using this
  rw [Option.some_bind]
  rw [hgt]
  rw [Option.some_bind]
  have hsp : splitFirst endLit (b ++ (endLit ++ S)) = some (b, S) := by
    apply splitFirst_occurrence endLit b S (by decide)
    exact noStart_of_ne_head '<' endLit b (endLit ++ S) ⟨_, rfl⟩ hb
  rw [hsp]
  simp

theorem tryEventTail_wf (n t b S : Chars) (hn : ∀ c ∈ n, c ≠ '"') (hne : n ≠ [])
    (ht : ∀ c ∈ t, c ≠ '"') (hte : t ≠ []) (hb : ∀ c ∈ b, c ≠ '<') :
    tryEventTail (n ++ '"' :: ' ' :: (tsLit ++ (t ++ '"' :: '>' :: (b ++ (endLit ++ S))))) =
      some (n ++ '"' :: ' ' :: (tsLit ++ (t ++ '"' :: '>' :: (b ++ endLit))), S) := by
  unfold tryEventTail
  rw [expectQuoted_eval n _ hn hne, Option.some_bind]
  have hstep : matchAfterName (' ' :: (tsLit ++ (t ++ '"' :: '>' :: (b ++ (endLit ++ S))))) =
      (matchAfterName (tsLit ++ (t ++ '"' :: '>' :: (b ++ (endLit ++ S))))).map
        (fun pr => (' ' :: pr.1, pr.2)) := by
    apply matchAfterName_step
    · rw [tsLit_eq]
      exact startsWithLit_cons_ne 't' ' ' _ _ (by decide)
    · decide
  rw [hstep]
  rw [matchAfterName_eval _ _ (tsTail_eval t b S ht hte hb)]
  simp

theorem tryEventTail_noTs (m bm S : Chars) (hm : ∀ c ∈ m, c ≠ '"') (hme : m ≠ []) :
    tryEventTail (m ++ '"' :: '>' :: (bm ++ (endLit ++ S))) = none := by
  unfold tryEventTail
  rw [expectQuoted_eval m _ hm hme, Option.some_bind]
  have hgt : matchAfterName ('>' :: (bm ++ (endLit ++ S))) = none := by
    apply matchAfterName_gt
    rw [tsLit_eq]
    exact startsWithLit_cons_ne 't' '>' _ _ (by decide)
  rw [hgt]
  rfl

/-! ### Skipping inert prefixes in the global scan -/

theorem scanEvents_skip (x s : Chars) (h : NoStart evLit x s) :
    scanEvents (x ++ s) = scanEvents s := by
  have hsp := splitFirst_append_of_noStart evLit x s h
  cases hs : splitFirst evLit s with
  | none =>
    rw [hs] at hsp
    rw [scanEvents_none _ hsp, scanEvents_none _ hs]
  | some pr =>
    rw [hs] at hsp
    simp only [Option.map_some, Option.map_some'] at hsp
    cases htr : tryEventTail pr.2 with
    | none =>
      rw [scanEvents_fail _ _ _ hsp htr, scanEvents_fail s pr.1 pr.2 (by rw [hs]) htr]
    | some mr =>
      rw [scanEvents_hit _ _ _ _ _ hsp htr, scanEvents_hit s pr.1 pr.2 mr.1 mr.2 (by rw [hs]) htr]

/-! ### The timestamp literal cannot start inside the name attribute -/

theorem tsLit_split : tsLit = tsEq ++ ['"'] := rfl

theorem noStart_ts_name (n s : Chars) (hq : ∀ c ∈ n, c ≠ '"')
    (hsuf : ¬ ∃ pre, n = pre ++ tsEq) : NoStart tsLit (n ++ ['"', ' ']) s := by
  intro x2 hne hx2 hpre
  obtain ⟨t0, ht0⟩ := hx2
  rcases List.append_eq_append_iff.mp ht0 with ⟨a, ha1, ha2⟩ | ⟨c2, _, hc2⟩
  · subst ha2
    rw [List.append_assoc] at hpre
    have hsub : a ⊆ n := fun c hc => ha1 ▸ List.mem_append.mpr (Or.inr hc)
    rcases List.prefix_or_prefix_of_prefix hpre
        (List.prefix_append a (['"', ' '] ++ s)) with h1 | h2
    · have hmem : '"' ∈ a := h1.subset (by decide)
      exact hq '"' (hsub hmem) rfl
    · obtain ⟨l2, hl2⟩ := h2
      have hl2p : l2 <+: ['"', ' '] ++ s := by
        rw [← hl2] at hpre
        exact (List.prefix_append_right_inj a).mp hpre
      cases l2 with
      | nil =>
        rw [List.append_nil] at hl2
        have hmem : '"' ∈ a := by rw [hl2]; decide
        exact hq '"' (hsub hmem) rfl
      | cons d l2i =>
        have hd : d = '"' := by
          have hp2 : d :: l2i <+: '"' :: (' ' :: s) := hl2p
          exact (List.cons_prefix_cons.mp hp2).1
        subst hd
        have heq2 : a ++ '"' :: l2i = tsEq ++ ['"'] := by rw [hl2]; rfl
        rcases List.append_eq_append_iff.mp heq2 with ⟨a2, hb1, hb2⟩ | ⟨cc, hcc1, hcc2⟩
        · cases a2 with
          | nil =>
            rw [List.append_nil] at hb1
            exact hsuf ⟨t0, by rw [ha1, hb1]⟩
          | cons e a2i =>
            have he : '"' = e := by
              have h0 := hb2
              rw [List.cons_append] at h0
              exact ((List.cons.injEq _ _ _ _).mp h0).1
            have hmem : '"' ∈ tsEq := by
              rw [hb1, ← he]
              simp
            exact absurd hmem (by decide)
        · cases cc with
          | nil =>
            rw [List.append_nil] at hcc1
            exact hsuf ⟨t0, by rw [ha1, hcc1]⟩
          | cons e cci =>
            exfalso
            have hlen := congrArg List.length hcc2
            simp [List.length_append] at hlen
  · have hx2e : x2 = ['"', ' '] ∨ x2 = [' '] := by
      cases c2 with
      | nil => left; simpa using hc2.symm
      | cons e c2i =>
        cases c2i with
        | nil =>
          right
          rw [List.cons_append, List.nil_append] at hc2
          have := ((List.cons.injEq _ _ _ _).mp hc2).2
          cases x2 with
          | nil => exact absurd rfl hne
          | cons f x2i =>
            have hf := ((List.cons.injEq _ _ _ _).mp this).1
            have hrest := ((List.cons.injEq _ _ _ _).mp this).2
            have hx2i : x2i = [] := by
              have hlen := congrArg List.length hrest
              simpa using (List.eq_nil_of_length_eq_zero (by simpa using hlen.symm))
            rw [hf, hx2i]
        | cons f c2ii =>
          exfalso
          cases x2 with
          | nil => exact hne rfl
          | cons g x2i =>
            have hlen := congrArg List.length hc2
            simp [List.length_append] at hlen
    rcases hx2e with rfl | rfl
    · rw [tsLit_eq] at hpre
      have := (List.cons_prefix_cons.mp hpre).1
      exact absurd this (by decide)
    · rw [tsLit_eq] at hpre
      have := (List.cons_prefix_cons.mp hpre).1
      exact absurd this (by decide)

/-! ### The global scan on rendered payloads -/

theorem renderPayload_cons (e : XElem) (es : List XElem) :
    renderPayload (e :: es) = renderElem e ++ renderPayload es := by
  simp [renderPayload]

theorem evLit_head : ∃ l2, evLit = '<' :: l2 := ⟨_, evLit_eq⟩

theorem scanEvents_render :
    ∀ (es : List XElem), (∀ e ∈ es, ElemOk e) →
      scanEvents (renderPayload es) = es.filterMap wfRender := by
  intro es
  induction es with
  | nil =>
    intro _
    have : renderPayload [] = [] := by simp [renderPayload]
    rw [this, scanEvents_none [] rfl]
    rfl
  | cons e es ih =>
    intro h
    have hih := ih (fun x hx => h x (by simp [hx]))
    have he := h e (by simp)
    cases e with
    | wf n t b =>
      obtain ⟨hne, hn, _, hte, ht, hb⟩ := he
      have harg : renderPayload (XElem.wf n t b :: es) =
          evLit ++ (n ++ '"' :: ' ' :: (tsLit ++ (t ++ '"' :: '>' ::
            (b ++ (endLit ++ renderPayload es))))) := by
        rw [renderPayload_cons]
        simp [renderElem, List.append_assoc]
      have hsplit : splitFirst evLit (renderPayload (XElem.wf n t b :: es)) =
          some ([], n ++ '"' :: ' ' :: (tsLit ++ (t ++ '"' :: '>' ::
            (b ++ (endLit ++ renderPayload es))))) := by
        rw [harg]
        exact splitFirst_self evLit _ (by decide)
      have htry := tryEventTail_wf n t b (renderPayload es)
        (fun c hc => (hn c hc).1) hne (fun c hc => (ht c hc).1) hte
        (fun c hc => (hb c hc).2.1)
      rw [scanEvents_hit _ _ _ _ _ hsplit htry, hih]
      have hm : evLit ++ (n ++ '"' :: ' ' :: (tsLit ++ (t ++ '"' :: '>' ::
          (b ++ endLit)))) = renderElem (XElem.wf n t b) := by
        simp [renderElem, List.append_assoc]
      rw [hm]
      rfl
    | noTs m bm =>
      obtain ⟨hme, hm, hbm⟩ := he
      have harg : renderPayload (XElem.noTs m bm :: es) =
          evLit ++ (m ++ '"' :: '>' :: (bm ++ (endLit ++ renderPayload es))) := by
        rw [renderPayload_cons]
        simp [renderElem, List.append_assoc]
      have hsplit : splitFirst evLit (renderPayload (XElem.noTs m bm :: es)) =
          some ([], m ++ '"' :: '>' :: (bm ++ (endLit ++ renderPayload es))) := by
        rw [harg]
        exact splitFirst_self evLit _ (by decide)
      have hfail := tryEventTail_noTs m bm (renderPayload es)
        (fun c hc => (hm c hc).1) hme
      rw [scanEvents_fail _ _ _ hsplit hfail]
      have hshape : m ++ '"' :: '>' :: (bm ++ (endLit ++ renderPayload es)) =
          ((m ++ '"' :: '>' :: bm) ++ endLit) ++ renderPayload es := by
        simp [List.append_assoc]
      rw [hshape, scanEvents_skip _ _ ?hns, hih]
      case hns =>
        apply noStart_append
        · apply noStart_of_ne_head '<' evLit _ _ evLit_head
          intro c hc
          simp only [List.mem_append, List.mem_cons] at hc
          rcases hc with hc | rfl | rfl | hc
          · exact (hm c hc).2.1
          · decide
          · decide
          · exact (hbm c hc).2.1
        · exact noStart_of_suffixesOK evLit endLit (by decide) _
      rfl
    | swapped n t b =>
      obtain ⟨hne, hn, hte, ht, hb⟩ := he
      have hshape : renderPayload (XElem.swapped n t b :: es) =
          ((evStart ++ tsLit) ++ ((t ++ '"' :: ' ' :: (nameLit ++
            (n ++ '"' :: '>' :: b))) ++ endLit)) ++ renderPayload es := by
        rw [renderPayload_cons]
        simp [renderElem, List.append_assoc]
      rw [hshape, scanEvents_skip _ _ ?hns2, hih]
      case hns2 =>
        apply noStart_append
        · exact noStart_of_suffixesOK evLit (evStart ++ tsLit) (by decide) _
        · apply noStart_append
          · apply noStart_of_ne_head '<' evLit _ _ evLit_head
            intro c hc
            simp only [List.mem_append, List.mem_cons] at hc
            rcases hc with hc | rfl | rfl | hc | hc | rfl | rfl | hc
            · exact (ht c hc).2.1
            · decide
            · decide
            · exact (by decide : ∀ x, x ∈ nameLit → x ≠ '<') c hc
            · exact (hn c hc).2.1
            · decide
            · decide
            · exact (hb c hc).2.1
          · exact noStart_of_suffixesOK evLit endLit (by decide) _
      rfl

/-! ### Extraction from a well-formed match string -/

theorem noStart_wf_inner (hl : Chars) (hhead : ∃ l2, hl = '<' :: l2)
    (h1 : suffixesOK hl evLit = true) (h2 : suffixesOK hl endLit = true)
    (n t b : Chars) (hn : Plain n) (ht : Plain t) (hb : Plain b) :
    NoStart hl (renderElem (XElem.wf n t b)) [] := by
  have hshape : renderElem (XElem.wf n t b) =
      evLit ++ ((n ++ '"' :: ' ' :: (tsLit ++ (t ++ '"' :: '>' :: b))) ++ endLit) := by
    simp [renderElem, List.append_assoc]
  rw [hshape]
  apply noStart_append
  · exact noStart_of_suffixesOK hl evLit h1 _
  · apply noStart_append
    · apply noStart_of_ne_head '<' hl _ _ hhead
      intro c hc
      simp only [List.mem_append, List.mem_cons] at hc
      rcases hc with hc | rfl | rfl | hc | hc | rfl | rfl | hc
      · exact (hn c hc).2.1
      · decide
      · decide
      · exact (by decide : ∀ x, x ∈ tsLit → x ≠ '<') c hc
      · exact (ht c hc).2.1
      · decide
      · decide
      · exact (hb c hc).2.1
    · exact noStart_of_suffixesOK hl endLit h2 _

theorem parseEventMatch_wf (lk : List (Int × Chars)) (n t b : Chars)
    (hne : n ≠ []) (hn : Plain n) (hsuf : ¬ ∃ pre, n = pre ++ tsEq)
    (hte : t ≠ []) (ht : Plain t) (hb : Plain b) :
    parseEventMatch lk (renderElem (XElem.wf n t b)) = some ⟨n, t, []⟩ := by
  have hM1 : renderElem (XElem.wf n t b) =
      ('<' :: "event name=\"".toList) ++
        (n ++ '"' :: (' ' :: (tsLit ++ (t ++ '"' :: '>' :: (b ++ endLit))))) := by
    rw [← evLit_eq]
    simp [renderElem, List.append_assoc]
  have ha : findCapture evLit (renderElem (XElem.wf n t b)) = some n := by
    rw [evLit_eq, hM1]
    exact findCapture_here '<' _ _ n _
      (expectQuoted_eval n _ (fun c hc => (hn c hc).1) hne)
  have hM2 : renderElem (XElem.wf n t b) =
      (evLit ++ (n ++ ['"', ' '])) ++ (tsLit ++ (t ++ '"' :: ('>' :: (b ++ endLit)))) := by
    simp [renderElem, List.append_assoc]
  have hb2 : findCapture tsLit (renderElem (XElem.wf n t b)) = some t := by
    rw [hM2, findCapture_append_of_noStart tsLit _ _ ?hnsts]
    case hnsts =>
      apply noStart_append
      · exact noStart_of_suffixesOK tsLit evLit (by decide) _
      · exact noStart_ts_name n _ (fun c hc => (hn c hc).1) hsuf
    rw [tsLit_eq]
    exact findCapture_here 't' _ _ t _
      (expectQuoted_eval t _ (fun c hc => (ht c hc).1) hte)
  have hd1 : fieldMatches dataLit valueOpen valueClose (renderElem (XElem.wf n t b)) = [] :=
    fieldMatches_nil _ _ _ _
      (noStart_wf_inner dataLit ⟨_, rfl⟩ (by decide) (by decide) n t b hn ht hb)
  have hd2 : fieldMatches actionLit valueOpen valueClose (renderElem (XElem.wf n t b)) = [] :=
    fieldMatches_nil _ _ _ _
      (noStart_wf_inner actionLit ⟨_, rfl⟩ (by decide) (by decide) n t b hn ht hb)
  have hd3 : fieldMatches dataLit textOpen textClose (renderElem (XElem.wf n t b)) = [] :=
    fieldMatches_nil _ _ _ _
      (noStart_wf_inner dataLit ⟨_, rfl⟩ (by decide) (by decide) n t b hn ht hb)
  unfold parseEventMatch
  rw [ha, hb2]
  simp only [hd1, hd2, hd3]
  rfl

/-! ### The parser on rendered payloads -/

theorem filterMap_parse (lk : List (Int × Chars)) :
    ∀ (es : List XElem), (∀ e ∈ es, ElemOk e) →
      (es.filterMap wfRender).filterMap (parseEventMatch lk) =
        es.filterMap elemEvent := by
  intro es
  induction es with
  | nil => intro _; rfl
  | cons e es ih =>
    intro h
    have hih := ih (fun x hx => h x (by simp [hx]))
    cases e with
    | wf n t b =>
      obtain ⟨hne, hn, hsuf, hte, ht, hb⟩ := h (XElem.wf n t b) (by simp)
      simp only [List.filterMap_cons, wfRender, elemEvent]
      rw [parseEventMatch_wf lk n t b hne hn hsuf hte ht hb, hih]
    | noTs m bm =>
      simp only [List.filterMap_cons, wfRender, elemEvent]
      exact hih
    | swapped n t b =>
      simp only [List.filterMap_cons, wfRender, elemEvent]
      exact hih

/-- Main parser theorem: on a payload rendered from well-formed structured
elements, `parseXEventData` returns exactly one event per element that is
an `<event>` with `name="…"` first and a `timestamp` attribute, in payload
order; elements lacking the timestamp attribute or carrying it before the
name attribute are skipped. -/
theorem parseXEventData_render (es : List XElem) (h : ∀ e ∈ es, ElemOk e)
    (lk : List (Int × Chars)) :
    parseXEventData (renderPayload es) lk = es.filterMap elemEvent := by
  unfold parseXEventData
  rw [scanEvents_render es h]
  exact filterMap_parse lk es h

/-- A name shorter than `timestamp=` cannot end in it. -/
theorem not_suffix_tsEq_of_short (n : Chars) (h : n.length < tsEq.length) :
    ¬ ∃ pre, n = pre ++ tsEq := by
  intro ⟨pre, hp⟩
  have hl := congrArg List.length hp
  rw [List.length_append] at hl
  omega

/-! ## Claim C7 -/

/-- Claim C7, amended: for every payload consisting of two well-formed
event elements with distinct timestamps plus one malformed element lacking
a timestamp attribute (in any of the three arrangements), and whose event
names do not end in the characters `timestamp=`, `parseXEventData` returns
exactly the two well-formed events, in payload order, silently skipping the
malformed element.  Without the name proviso the claim fails: the inner
timestamp regex, re-run on the whole match string, then matches inside the
name attribute and extracts a wrong timestamp. -/
theorem claim_C7_amended (lk : List (Int × Chars)) (n1 t1 b1 n2 t2 b2 nm bm : Chars)
    (h1 : ElemOk (XElem.wf n1 t1 b1)) (h2 : ElemOk (XElem.wf n2 t2 b2))
    (hm : ElemOk (XElem.noTs nm bm)) (_hts : t1 ≠ t2) (es : List XElem)
    (harr : es = [XElem.noTs nm bm, XElem.wf n1 t1 b1, XElem.wf n2 t2 b2] ∨
            es = [XElem.wf n1 t1 b1, XElem.noTs nm bm, XElem.wf n2 t2 b2] ∨
            es = [XElem.wf n1 t1 b1, XElem.wf n2 t2 b2, XElem.noTs nm bm]) :
    parseXEventData (renderPayload es) lk = [⟨n1, t1, []⟩, ⟨n2, t2, []⟩] := by
  have hmem : ∀ e ∈ es, ElemOk e := by
    intro e he
    rcases harr with rfl | rfl | rfl <;>
      (simp only [List.mem_cons, List.not_mem_nil, or_false] at he;
       rcases he with rfl | rfl | rfl <;> first | exact h1 | exact h2 | exact hm)
  rw [parseXEventData_render es hmem lk]
  rcases harr with rfl | rfl | rfl <;> rfl

/-- Witness for C7 at a concrete payload
`<event name="a" timestamp="T1"></event><event name="bad"></event><event name="b" timestamp="T2"></event>`. -/
theorem claim_C7_witness :
    parseXEventData (renderPayload [XElem.wf "a".toList "T1".toList [],
      XElem.noTs "bad".toList [], XElem.wf "b".toList "T2".toList []]) [] =
      [⟨"a".toList, "T1".toList, []⟩, ⟨"b".toList, "T2".toList, []⟩] :=
  claim_C7_amended [] "a".toList "T1".toList [] "b".toList "T2".toList [] "bad".toList []
    ⟨by decide, by decide, not_suffix_tsEq_of_short _ (by decide), by decide,
      by decide, by decide⟩
    ⟨by decide, by decide, not_suffix_tsEq_of_short _ (by decide), by decide,
      by decide, by decide⟩
    ⟨by decide, by decide, by decide⟩ (by decide) _ (Or.inr (Or.inl rfl))

set_option maxRecDepth 20000 in
/-- Counterexample to claim C7 as stated: `c7BadPayload` holds two
well-formed event elements with distinct timestamps `T1` and `T2` plus one
malformed element lacking the timestamp attribute, yet the parser does NOT
return the two well-formed events: the second event's name attribute ends
in the characters `timestamp=`, so the inner timestamp regex matches inside
the name attribute and the event comes back with timestamp ` timestamp=`
instead of `T2`. -/
theorem claim_C7_counterexample :
    parseXEventData c7BadPayload [] =
      [⟨"a".toList, "T1".toList, []⟩,
       ⟨"xtimestamp=".toList, " timestamp=".toList, []⟩] ∧
    " timestamp=".toList ≠ "T2".toList := by
  refine ⟨by decide, by decide⟩

/-! ## Claim C10 -/

/-- Claim C10: an event element whose timestamp attribute precedes its name
attribute is omitted from the parser output (the outer regex requires the
literal `<event name="`); well-formed neighbours are still returned. -/
theorem claim_C10 (lk : List (Int × Chars)) (n t b n1 t1 b1 n2 t2 b2 : Chars)
    (h1 : ElemOk (XElem.wf n1 t1 b1)) (h2 : ElemOk (XElem.wf n2 t2 b2))
    (hsw : ElemOk (XElem.swapped n t b)) :
    parseXEventData (renderPayload
      [XElem.wf n1 t1 b1, XElem.swapped n t b, XElem.wf n2 t2 b2]) lk =
      [⟨n1, t1, []⟩, ⟨n2, t2, []⟩] := by
  have hmem : ∀ e ∈ [XElem.wf n1 t1 b1, XElem.swapped n t b, XElem.wf n2 t2 b2],
      ElemOk e := by
    intro e he
    simp only [List.mem_cons, List.not_mem_nil, or_false] at he
    rcases he with rfl | rfl | rfl
    · exact h1
    · exact hsw
    · exact h2
  rw [parseXEventData_render _ hmem lk]
  rfl

/-- Witness for C10 at a concrete payload whose middle element is
`<event timestamp="TX" name="x"></event>`. -/
theorem claim_C10_witness :
    parseXEventData (renderPayload [XElem.wf "a".toList "T1".toList [],
      XElem.swapped "x".toList "TX".toList [],
      XElem.wf "b".toList "T2".toList []]) [] =
      [⟨"a".toList, "T1".toList, []⟩, ⟨"b".toList, "T2".toList, []⟩] :=
  claim_C10 [] "x".toList "TX".toList [] "a".toList "T1".toList []
    "b".toList "T2".toList []
    ⟨by decide, by decide, not_suffix_tsEq_of_short _ (by decide), by decide,
      by decide, by decide⟩
    ⟨by decide, by decide, not_suffix_tsEq_of_short _ (by decide), by decide,
      by decide, by decide⟩
    ⟨by decide, by decide, by decide, by decide, by decide⟩

/-! ## Claim C8 -/

theorem find?_map_set (vs : List (Chars × Chars)) (kp v k : Chars) (h : k ≠ kp) :
    (vs.map (fun p => if p.1 = kp then (kp, v) else p)).find? (fun p => p.1 = k) =
      vs.find? (fun p => p.1 = k) := by
  induction vs with
  | nil => rfl
  | cons q vs ih =>
    rw [List.map_cons]
    by_cases hq : q.1 = kp
    · rw [if_pos hq, List.find?_cons, List.find?_cons]
      have h1 : decide ((kp, v).1 = k) = false := by simp [Ne.symm h]
      have h2 : decide (q.1 = k) = false := by
        rw [hq]
        simp [Ne.symm h]
      rw [h1, h2]
      exact ih
    · rw [if_neg hq, List.find?_cons, List.find?_cons]
      by_cases hqk : q.1 = k
      · simp [hqk]
      · rw [decide_eq_false hqk]
        exact ih

theorem getValue_setValue_ne (vs : List (Chars × Chars)) (kp v k : Chars)
    (h : k ≠ kp) : getValue (setValue vs kp v) k = getValue vs k := by
  unfold setValue
  by_cases hany : vs.any (fun p => p.1 = kp) = true
  · rw [if_pos hany]
    unfold getValue
    rw [find?_map_set vs kp v k h]
  · rw [if_neg hany]
    unfold getValue
    induction vs with
    | nil => simp [List.find?_cons, List.find?_nil, Ne.symm h]
    | cons q vs ih =>
      rw [List.cons_append, List.find?_cons, List.find?_cons]
      by_cases hqk : q.1 = k
      · simp [hqk]
      · rw [decide_eq_false hqk]
        apply ih
        intro hq
        exact hany (by simp [List.any_cons, hq])

/-- Claim C8, amended: the text-field loop stores sub-values only under
keys carrying the `_text` suffix; the value under any key that does not end
in `_text` — in particular every field's own primary value — is unchanged
by the loop.  (The claim as stated is false: a sub-value can overwrite the
primary value of a different field literally named with a `_text` ending,
and the first-match scan can attribute a sub-value to an earlier field.) -/
theorem claim_C8_amended :
    ∀ (ms vs : List (Chars × Chars)) (k : Chars),
      (¬ ∃ p, k = p ++ textSuffix) →
      getValue (applyTextFields vs ms) k = getValue vs k := by
  intro ms
  induction ms with
  | nil => intro vs k _; rfl
  | cons m ms ih =>
    intro vs k hk
    unfold applyTextFields at ih ⊢
    rw [List.foldl_cons, ih _ k hk]
    exact getValue_setValue_ne vs _ _ k (fun heq => hk ⟨m.1, heq⟩)

theorem not_append_suffix_of_short (k suf : Chars) (h : k.length < suf.length) :
    ¬ ∃ p, k = p ++ suf := by
  intro ⟨p, hp⟩
  have hl := congrArg List.length hp
  rw [List.length_append] at hl
  omega

/-- Witness for the amended C8: the primary value of field `q` survives a
text loop that stores a sub-value for field `b`. -/
theorem claim_C8_witness :
    (¬ ∃ p, ("q".toList : Chars) = p ++ textSuffix) ∧
    getValue (applyTextFields [("q".toList, "P".toList)]
        [("b".toList, "S".toList)]) "q".toList =
      getValue [(("q".toList : Chars), ("P".toList : Chars))] "q".toList :=
  ⟨not_append_suffix_of_short _ _ (by decide),
   claim_C8_amended [("b".toList, "S".toList)] [("q".toList, "P".toList)]
     "q".toList (not_append_suffix_of_short _ _ (by decide))⟩

/-- Counterexample to C8 as stated: in `textClashPayload` the data loop
first stores the primary value `V` under the key `q_text` (a field with
that literal name), and the text loop then stores field `q`'s sub-value
`S` under the same key `q_text`, overwriting the already-set primary
value. -/
theorem claim_C8_counterexample :
    getValue (applyFields []
        (fieldMatches dataLit valueOpen valueClose textClashPayload))
        "q_text".toList = some "V".toList ∧
    parseXEventData textClashPayload [] =
      [⟨"ev".toList, "t1".toList,
        [("q".toList, "P".toList), ("q_text".toList, "S".toList)]⟩] := by
  set_option maxRecDepth 20000 in constructor <;> decide

/-! ## Claims C1, C2, C6: the merge / retention step -/

/-- Claim C1 (code evaluation): with retention cap 3 and poll ticks parsing
events e1,e2 then e3,e4 (all timestamps distinct), the code retains
`[e4, e1, e2]` — `slice(-maxEvents)` keeps the tail of the newest-first
array, i.e. the oldest events, silently discarding the new event e3 — while
the spec (truncate from the oldest end) requires `[e3, e4, e1]`. -/
theorem claim_C1_code_eval :
    mergeEvents (mergeEvents []
        [⟨"e1".toList, "T1".toList, []⟩, ⟨"e2".toList, "T2".toList, []⟩] 3)
        [⟨"e3".toList, "T3".toList, []⟩, ⟨"e4".toList, "T4".toList, []⟩] 3 =
      [⟨"e4".toList, "T4".toList, []⟩, ⟨"e1".toList, "T1".toList, []⟩,
       ⟨"e2".toList, "T2".toList, []⟩] ∧
    mergeEvents (mergeEvents []
        [⟨"e1".toList, "T1".toList, []⟩, ⟨"e2".toList, "T2".toList, []⟩] 3)
        [⟨"e3".toList, "T3".toList, []⟩, ⟨"e4".toList, "T4".toList, []⟩] 3 ≠
      [⟨"e3".toList, "T3".toList, []⟩, ⟨"e4".toList, "T4".toList, []⟩,
       ⟨"e1".toList, "T1".toList, []⟩] := by
  constructor
  · decide
  · decide

/-- One merge step preserves timestamp-distinctness when the incoming batch
itself has pairwise distinct timestamps. -/
theorem mergeEvents_nodup (events batch : List ProfilerEvent) (cap : Nat)
    (hev : (events.map (fun e => e.timestamp)).Nodup)
    (hbatch : (batch.map (fun e => e.timestamp)).Nodup) :
    ((mergeEvents events batch cap).map (fun e => e.timestamp)).Nodup := by
  have hmerged : (((batch.filter
      (fun e => !events.any (fun x => x.timestamp = e.timestamp))) ++ events).map
        (fun e => e.timestamp)).Nodup := by
    rw [List.map_append, List.nodup_append]
    refine ⟨((List.filter_sublist batch).map _).nodup hbatch, hev, ?_⟩
    intro a ha hb
    rw [List.mem_map] at ha hb
    obtain ⟨e, he, rfl⟩ := ha
    obtain ⟨x, hx, hxe⟩ := hb
    rw [List.mem_filter] at he
    have h2 := he.2
    rw [Bool.not_eq_true'] at h2
    have h3 : events.any (fun x => x.timestamp = e.timestamp) = true :=
      List.any_eq_true.mpr ⟨x, hx, by simp [hxe]⟩
    rw [h2] at h3
    exact Bool.false_ne_true h3
  simp only [mergeEvents]
  split
  · exact hev
  · split
    · split
      · exact hmerged
      · exact ((List.drop_sublist _ _).map _).nodup hmerged
    · exact hmerged

/-- Claim C2, amended: dedup happens only against events already in the
list, not within one tick's parsed batch; the no-duplicate-timestamps
invariant therefore holds for all tick sequences PROVIDED each tick's
parsed batch has pairwise distinct timestamps. -/
theorem claim_C2_amended (ticks : List (List ProfilerEvent × Nat))
    (h : ∀ p ∈ ticks, (p.1.map (fun e => e.timestamp)).Nodup) :
    ((ticks.foldl (fun acc p => mergeEvents acc p.1 p.2) []).map
      (fun e => e.timestamp)).Nodup := by
  suffices hgen : ∀ (ts : List (List ProfilerEvent × Nat)) (start : List ProfilerEvent),
      (∀ p ∈ ts, (p.1.map (fun e => e.timestamp)).Nodup) →
      ((start.map (fun e => e.timestamp)).Nodup) →
      ((ts.foldl (fun acc p => mergeEvents acc p.1 p.2) start).map
        (fun e => e.timestamp)).Nodup by
    exact hgen ticks [] h (by simp)
  intro ts
  induction ts with
  | nil => intro start _ hs; exact hs
  | cons p ts ih =>
    intro start hts hs
    rw [List.foldl_cons]
    exact ih _ (fun q hq => hts q (by simp [hq]))
      (mergeEvents_nodup start p.1 p.2 hs (hts p (by simp)))

/-- Witness for the amended C2 at two concrete ticks. -/
theorem claim_C2_witness :
    (∀ p ∈ ([([⟨"a".toList, "T1".toList, []⟩], 3),
             ([⟨"b".toList, "T2".toList, []⟩, ⟨"c".toList, "T3".toList, []⟩], 3)] :
        List (List ProfilerEvent × Nat)),
      (p.1.map (fun e => e.timestamp)).Nodup) ∧
    ((([([⟨"a".toList, "T1".toList, []⟩], 3),
        ([⟨"b".toList, "T2".toList, []⟩, ⟨"c".toList, "T3".toList, []⟩], 3)] :
        List (List ProfilerEvent × Nat)).foldl
          (fun acc p => mergeEvents acc p.1 p.2) []).map
      (fun e => e.timestamp)).Nodup :=
  ⟨by decide, claim_C2_amended _ (by decide)⟩

/-- Counterexample to C2 as stated: a single tick whose payload holds two
well-formed events with the same timestamp adds BOTH (the dedup set is
built only from the pre-existing list), leaving duplicate timestamps. -/
theorem claim_C2_counterexample :
    mergeEvents [] (parseXEventData dupTsPayload []) 10 =
      [⟨"a".toList, "T1".toList, []⟩, ⟨"b".toList, "T1".toList, []⟩] ∧
    ¬ ((mergeEvents [] (parseXEventData dupTsPayload []) 10).map
        (fun e => e.timestamp)).Nodup := by
  set_option maxRecDepth 20000 in constructor <;> decide

/-- Claim C6, amended: provided the cap is at least 1, a poll tick never
pushes the list length above `max` of its previous length and the cap (so
the length never exceeds the cap unless it already did); with cap 0 the
truncation is `slice(-0) = slice(0)` and does nothing, and a tick that adds
no new events skips truncation entirely. -/
theorem claim_C6_amended (events batch : List ProfilerEvent) (cap : Nat)
    (hcap : 1 ≤ cap) :
    (mergeEvents events batch cap).length ≤ max events.length cap := by
  simp only [mergeEvents]
  split
  · exact Nat.le_max_left _ _
  · split
    · split
      · rename_i hlt hc0
        omega
      · rename_i hlt hc0
        rw [List.length_drop]
        exact Nat.le_trans (by omega) (Nat.le_max_right _ _)
    · rename_i hnlt
      exact Nat.le_trans (by omega) (Nat.le_max_right _ _)

/-- Witness for the amended C6. -/
theorem claim_C6_witness :
    1 ≤ 3 ∧
    (mergeEvents [⟨"a".toList, "T1".toList, []⟩]
      [⟨"b".toList, "T2".toList, []⟩] 3).length ≤
      max ([⟨"a".toList, "T1".toList, []⟩] : List ProfilerEvent).length 3 :=
  ⟨by decide, claim_C6_amended _ _ 3 (by decide)⟩

/-- Counterexample to C6 as stated: a tick that adds no new events (here an
empty parsed batch) performs no truncation, so a list of 3 events stays at
3 even though the cap in effect for the tick is 2. -/
theorem claim_C6_counterexample :
    mergeEvents [⟨"e1".toList, "T1".toList, []⟩, ⟨"e2".toList, "T2".toList, []⟩,
        ⟨"e3".toList, "T3".toList, []⟩] [] 2 =
      [⟨"e1".toList, "T1".toList, []⟩, ⟨"e2".toList, "T2".toList, []⟩,
       ⟨"e3".toList, "T3".toList, []⟩] ∧
    2 < (mergeEvents [⟨"e1".toList, "T1".toList, []⟩,
        ⟨"e2".toList, "T2".toList, []⟩, ⟨"e3".toList, "T3".toList, []⟩] [] 2).length := by
  constructor
  · decide
  · decide

/-! ## Lifecycle: session map and polling lemmas -/

theorem getSession_stopPolling (st : ServiceState) (n m : Chars) :
    getSession (stopPolling st n) m = getSession st m := rfl

theorem getSession_startPolling (st : ServiceState) (n m : Chars) :
    getSession (startPolling st n) m = getSession st m := by
  unfold startPolling getSession
  split <;> rfl

theorem find?_update_self (l : List (Chars × ProfilerSession)) (n : Chars)
    (s : ProfilerSession) (h : (l.find? (fun p => p.1 = n)).isSome = true) :
    (l.map (fun p => if p.1 = n then (n, s) else p)).find? (fun p => p.1 = n) =
      some (n, s) := by
  induction l with
  | nil => simp [List.find?_nil] at h
  | cons q l ih =>
    by_cases hq : q.1 = n
    · rw [List.map_cons, if_pos hq, List.find?_cons]
      simp
    · rw [List.map_cons, if_neg hq]
      rw [List.find?_cons] at h
      rw [List.find?_cons]
      simp only [decide_eq_false hq] at h ⊢
      exact ih h

theorem getSession_setSession_self (st : ServiceState) (n : Chars)
    (s0 s : ProfilerSession) (h : getSession st n = some s0) :
    getSession (setSession st n s) n = some s := by
  unfold getSession setSession at *
  have hsome : (st.activeSessions.find? (fun p => p.1 = n)).isSome = true := by
    cases hf : st.activeSessions.find? (fun p => p.1 = n) with
    | none => rw [hf] at h; simp at h
    | some q => rfl
  rw [find?_update_self st.activeSessions n s hsome]
  rfl

theorem pollingActive_stopPolling_self (st : ServiceState) (n : Chars) :
    pollingActive (stopPolling st n) n = false := by
  unfold pollingActive stopPolling
  rw [Bool.eq_false_iff]
  intro hany
  rw [List.any_eq_true] at hany
  obtain ⟨x, hx, hxe⟩ := hany
  rw [List.mem_filter] at hx
  have := hx.2
  rw [hxe] at this  -- hmm hxe : decide (x = n) = true
  simp at hxe
  rw [hxe] at hx
  simp at hx

theorem setSession_polling (st : ServiceState) (n : Chars) (s : ProfilerSession) :
    (setSession st n s).pollingIntervals = st.pollingIntervals := rfl

theorem stopPolling_sessions (st : ServiceState) (n : Chars) :
    (stopPolling st n).activeSessions = st.activeSessions := rfl

/-! ## Claim C9: pause then resume -/

/-- Claim C9: on a registered `Running` session, `pauseSession` followed by
`resumeSession` succeeds, issues no remote command at either step, leaves
the collected event list unchanged and ends with the session `Running`
(pause only stops local polling and sets `Paused`; resume sets `Running`
and restarts polling). -/
theorem claim_C9 (st : ServiceState) (name : Chars) (s : ProfilerSession)
    (h1 : getSession st name = some s) (_h2 : s.state = SessionState.Running) :
    (pauseSession st name).outcome = OpOutcome.ok ∧
    (pauseSession st name).cmds = 0 ∧
    (resumeSession (pauseSession st name).state name).outcome = OpOutcome.ok ∧
    (resumeSession (pauseSession st name).state name).cmds = 0 ∧
    ((getSession (resumeSession (pauseSession st name).state name).state name).map
      (fun x => x.events)) = some s.events ∧
    ((getSession (resumeSession (pauseSession st name).state name).state name).map
      (fun x => x.state)) = some SessionState.Running ∧
    pollingActive (resumeSession (pauseSession st name).state name).state name = true := by
  have hpause : pauseSession st name =
      ⟨OpOutcome.ok, setSession (stopPolling st name) name { s with state := SessionState.Paused }, 0⟩ := by
    unfold pauseSession
    rw [h1]
  have hget1 : getSession (pauseSession st name).state name =
      some { s with state := SessionState.Paused } := by
    rw [hpause]
    exact getSession_setSession_self _ name s _ (by rw [getSession_stopPolling, h1])
  have hresume : resumeSession (pauseSession st name).state name =
      ⟨OpOutcome.ok,
        startPolling (setSession (pauseSession st name).state name
          { s with state := SessionState.Running }) name, 0⟩ := by
    unfold resumeSession
    rw [hget1]
    rfl
  have hget2 : getSession (resumeSession (pauseSession st name).state name).state name =
      some { s with state := SessionState.Running } := by
    rw [hresume, getSession_startPolling]
    exact getSession_setSession_self _ name _ _ hget1
  refine ⟨by rw [hpause], by rw [hpause], by rw [hresume], by rw [hresume],
    by simp [hget2], by simp [hget2], ?_⟩
  rw [hresume]
  unfold pollingActive startPolling
  split
  · assumption
  · simp

/-- Witness for C9 at a concrete one-session state. -/
theorem claim_C9_witness :
    (getSession ⟨[("s".toList,
        ⟨"s".toList, false, SessionState.Running, [], [], none, none⟩)], ["s".toList]⟩
      "s".toList = some ⟨"s".toList, false, SessionState.Running, [], [], none, none⟩) ∧
    (pauseSession ⟨[("s".toList,
        ⟨"s".toList, false, SessionState.Running, [], [], none, none⟩)], ["s".toList]⟩
      "s".toList).outcome = OpOutcome.ok ∧
    (resumeSession (pauseSession ⟨[("s".toList,
        ⟨"s".toList, false, SessionState.Running, [], [], none, none⟩)], ["s".toList]⟩
      "s".toList).state "s".toList).outcome = OpOutcome.ok :=
  ⟨by decide,
   (claim_C9 ⟨[("s".toList,
        ⟨"s".toList, false, SessionState.Running, [], [], none, none⟩)], ["s".toList]⟩
      "s".toList ⟨"s".toList, false, SessionState.Running, [], [], none, none⟩
      (by decide) (by decide)).1,
   (claim_C9 ⟨[("s".toList,
        ⟨"s".toList, false, SessionState.Running, [], [], none, none⟩)], ["s".toList]⟩
      "s".toList ⟨"s".toList, false, SessionState.Running, [], [], none, none⟩
      (by decide) (by decide)).2.2.1⟩

/-! ## Claim C3: start on a Running session -/

/-- Claim C3, amended: `startSession` performs no state check at all — on a
registered session that is already `Running` it still issues the remote
START command (exactly one) and, when that command succeeds, reports
success and leaves the session `Running`; no `InvalidStateTransition`
error exists in the code. -/
theorem claim_C3_amended (st : ServiceState) (name : Chars) (s : ProfilerSession)
    (remoteOk : Bool) (now : Nat) (h1 : getSession st name = some s)
    (_h2 : s.state = SessionState.Running) :
    (startSession st name remoteOk now).cmds = 1 ∧
    (remoteOk = true →
      (startSession st name remoteOk now).outcome = OpOutcome.ok ∧
      ((getSession (startSession st name remoteOk now).state name).map
        (fun x => x.state)) = some SessionState.Running) := by
  unfold startSession
  rw [h1]
  cases remoteOk with
  | false =>
    refine ⟨rfl, ?_⟩
    intro h
    exact absurd h (by simp)
  | true =>
    refine ⟨rfl, fun _ => ⟨rfl, ?_⟩⟩
    show (getSession (startPolling (setSession st name
        { s with state := SessionState.Running, startedAt := some now }) name) name).map
        (fun x => x.state) = some SessionState.Running
    rw [getSession_startPolling, getSession_setSession_self st name s _ h1]
    rfl

/-- Counterexample to C3 as stated: starting a session already `Running`
succeeds (outcome `ok`) and issues one remote command, instead of failing
with `InvalidStateTransition` and issuing none. -/
theorem claim_C3_counterexample :
    (startSession ⟨[("s".toList,
        ⟨"s".toList, false, SessionState.Running, [], [], none, none⟩)], ["s".toList]⟩
      "s".toList true 0).outcome = OpOutcome.ok ∧
    (startSession ⟨[("s".toList,
        ⟨"s".toList, false, SessionState.Running, [], [], none, none⟩)], ["s".toList]⟩
      "s".toList true 0).cmds = 1 := by
  constructor
  · decide
  · decide

/-- Witness for the amended C3. -/
theorem claim_C3_witness :
    (startSession ⟨[("r".toList,
        ⟨"r".toList, false, SessionState.Running, [], [], none, none⟩)], ["r".toList]⟩
      "r".toList true 5).cmds = 1 ∧
    ((startSession ⟨[("r".toList,
        ⟨"r".toList, false, SessionState.Running, [], [], none, none⟩)], ["r".toList]⟩
      "r".toList true 5).outcome = OpOutcome.ok ∧
      ((getSession (startSession ⟨[("r".toList,
          ⟨"r".toList, false, SessionState.Running, [], [], none, none⟩)], ["r".toList]⟩
        "r".toList true 5).state "r".toList).map
        (fun x => x.state)) = some SessionState.Running) :=
  ⟨(claim_C3_amended ⟨[("r".toList,
      ⟨"r".toList, false, SessionState.Running, [], [], none, none⟩)], ["r".toList]⟩
      "r".toList ⟨"r".toList, false, SessionState.Running, [], [], none, none⟩
      true 5 (by decide) (by decide)).1,
   (claim_C3_amended ⟨[("r".toList,
      ⟨"r".toList, false, SessionState.Running, [], [], none, none⟩)], ["r".toList]⟩
      "r".toList ⟨"r".toList, false, SessionState.Running, [], [], none, none⟩
      true 5 (by decide) (by decide)).2 rfl⟩

/-! ## Claim C5: pause from any state -/

/-- Claim C5, amended: `pauseSession` performs no state check — on ANY
registered session, whatever its state, it succeeds with no remote command,
stops local polling and sets the state to `Paused`; it fails only with
`SessionNotFound` for unregistered names (no `SessionNotPausable` error
exists in the code). -/
theorem claim_C5_amended (st : ServiceState) (name : Chars) (s : ProfilerSession)
    (h1 : getSession st name = some s) :
    (pauseSession st name).outcome = OpOutcome.ok ∧
    (pauseSession st name).cmds = 0 ∧
    ((getSession (pauseSession st name).state name).map (fun x => x.state)) =
      some SessionState.Paused ∧
    ((getSession (pauseSession st name).state name).map (fun x => x.events)) =
      some s.events ∧
    pollingActive (pauseSession st name).state name = false := by
  have hpause : pauseSession st name =
      ⟨OpOutcome.ok, setSession (stopPolling st name) name
        { s with state := SessionState.Paused }, 0⟩ := by
    unfold pauseSession
    rw [h1]
  have hget : getSession (pauseSession st name).state name =
      some { s with state := SessionState.Paused } := by
    rw [hpause]
    exact getSession_setSession_self _ name s _ (by rw [getSession_stopPolling, h1])
  refine ⟨by rw [hpause], by rw [hpause], by simp [hget], by simp [hget], ?_⟩
  rw [hpause]
  have : (setSession (stopPolling st name) name
      { s with state := SessionState.Paused }).pollingIntervals =
      (stopPolling st name).pollingIntervals := rfl
  unfold pollingActive
  rw [this]
  exact pollingActive_stopPolling_self st name

/-- Counterexample to C5 as stated: pausing a session whose state is
`Stopped` (not `Running`) succeeds and sets it to `Paused`, instead of
failing with `SessionNotPausable`. -/
theorem claim_C5_counterexample :
    (pauseSession ⟨[("s".toList,
        ⟨"s".toList, false, SessionState.Stopped, [], [], none, none⟩)], []⟩
      "s".toList).outcome = OpOutcome.ok ∧
    ((getSession (pauseSession ⟨[("s".toList,
        ⟨"s".toList, false, SessionState.Stopped, [], [], none, none⟩)], []⟩
      "s".toList).state "s".toList).map (fun x => x.state)) =
      some SessionState.Paused := by
  constructor
  · decide
  · decide

/-- Witness for the amended C5. -/
theorem claim_C5_witness :
    (pauseSession ⟨[("p".toList,
        ⟨"p".toList, false, SessionState.Running, [], [], none, none⟩)], ["p".toList]⟩
      "p".toList).outcome = OpOutcome.ok ∧
    pollingActive (pauseSession ⟨[("p".toList,
        ⟨"p".toList, false, SessionState.Running, [], [], none, none⟩)], ["p".toList]⟩
      "p".toList).state "p".toList = false :=
  ⟨(claim_C5_amended ⟨[("p".toList,
      ⟨"p".toList, false, SessionState.Running, [], [], none, none⟩)], ["p".toList]⟩
      "p".toList ⟨"p".toList, false, SessionState.Running, [], [], none, none⟩
      (by decide)).1,
   (claim_C5_amended ⟨[("p".toList,
      ⟨"p".toList, false, SessionState.Running, [], [], none, none⟩)], ["p".toList]⟩
      "p".toList ⟨"p".toList, false, SessionState.Running, [], [], none, none⟩
      (by decide)).2.2.2.2⟩

/-! ## Claim C4: failed lifecycle operations -/

/-- Claim C4, amended: when the remote command fails, a lifecycle
operation leaves the session's registry membership, lifecycle state and
event list unchanged, and `startSession` leaves everything (including
polling) unchanged; but `stopSession` has ALREADY stopped local polling
before issuing the command (the deletion survives the failure), and a
failed `dropSession` on a `Running` session keeps the completed stop
transition (state `Stopped`, polling off), though the session stays
registered with its events intact. -/
theorem claim_C4_amended (st : ServiceState) (name : Chars) (s : ProfilerSession)
    (now : Nat) (stopOk : Bool) (h1 : getSession st name = some s) :
    ((startSession st name false now).state = st ∧
     (startSession st name false now).outcome =
       OpOutcome.failed OpError.remoteCommandFailed) ∧
    ((stopSession st name false now).outcome =
       OpOutcome.failed OpError.remoteCommandFailed ∧
     (stopSession st name false now).state.activeSessions = st.activeSessions) ∧
    ((dropSession st name stopOk false now).outcome =
       OpOutcome.failed OpError.remoteCommandFailed ∧
     ((getSession (dropSession st name stopOk false now).state name).map
       (fun x => x.events)) = some s.events) := by
  have hstopT : stopSession st name true now =
      ⟨OpOutcome.ok, setSession (stopPolling st name) name
        { s with state := SessionState.Stopped, stoppedAt := some now }, 1⟩ := by
    unfold stopSession
    rw [h1]
    rfl
  have hstopF : stopSession st name false now =
      ⟨OpOutcome.failed OpError.remoteCommandFailed, stopPolling st name, 1⟩ := by
    unfold stopSession
    rw [h1]
    rfl
  refine ⟨⟨?_, ?_⟩, ⟨?_, ?_⟩, ?_⟩
  · unfold startSession
    rw [h1]
    rfl
  · unfold startSession
    rw [h1]
    rfl
  · rw [hstopF]
  · rw [hstopF]
    rfl
  · unfold dropSession
    simp only [h1]
    by_cases hrun : s.state = SessionState.Running
    · rw [if_pos hrun]
      cases stopOk with
      | true =>
        rw [hstopT]
        constructor
        · rfl
        · show (getSession (setSession (stopPolling st name) name
              { s with state := SessionState.Stopped, stoppedAt := some now }) name).map
              (fun x => x.events) = some s.events
          rw [getSession_setSession_self _ name s _ (by rw [getSession_stopPolling, h1])]
          rfl
      | false =>
        rw [hstopF]
        constructor
        · rfl
        · show (getSession (stopPolling st name) name).map (fun x => x.events) =
            some s.events
          rw [getSession_stopPolling, h1]
          rfl
    · rw [if_neg hrun]
      constructor
      · rfl
      · show (getSession st name).map (fun x => x.events) = some s.events
        rw [h1]
        rfl

/-- Counterexample to C4 as stated: a failed `stopSession` on a `Running`,
actively polled session reports `RemoteCommandFailed` but polling is no
longer active afterwards — the prior observable state is NOT fully
intact. -/
theorem claim_C4_counterexample :
    (stopSession ⟨[("s".toList,
        ⟨"s".toList, false, SessionState.Running, [], [], none, none⟩)], ["s".toList]⟩
      "s".toList false 0).outcome = OpOutcome.failed OpError.remoteCommandFailed ∧
    pollingActive ⟨[("s".toList,
        ⟨"s".toList, false, SessionState.Running, [], [], none, none⟩)], ["s".toList]⟩
      "s".toList = true ∧
    pollingActive (stopSession ⟨[("s".toList,
        ⟨"s".toList, false, SessionState.Running, [], [], none, none⟩)], ["s".toList]⟩
      "s".toList false 0).state "s".toList = false := by
  refine ⟨?_, ?_, ?_⟩
  · decide
  · decide
  · decide

/-- Witness for the amended C4. -/
theorem claim_C4_witness :
    ((startSession ⟨[("w".toList,
        ⟨"w".toList, false, SessionState.Running, [], [], none, none⟩)], ["w".toList]⟩
      "w".toList false 7).state = ⟨[("w".toList,
        ⟨"w".toList, false, SessionState.Running, [], [], none, none⟩)], ["w".toList]⟩) ∧
    ((dropSession ⟨[("w".toList,
        ⟨"w".toList, false, SessionState.Running, [], [], none, none⟩)], ["w".toList]⟩
      "w".toList true false 7).outcome = OpOutcome.failed OpError.remoteCommandFailed) :=
  ⟨((claim_C4_amended ⟨[("w".toList,
      ⟨"w".toList, false, SessionState.Running, [], [], none, none⟩)], ["w".toList]⟩
      "w".toList ⟨"w".toList, false, SessionState.Running, [], [], none, none⟩
      7 true (by decide)).1).1,
   ((claim_C4_amended ⟨[("w".toList,
      ⟨"w".toList, false, SessionState.Running, [], [], none, none⟩)], ["w".toList]⟩
      "w".toList ⟨"w".toList, false, SessionState.Running, [], [], none, none⟩
      7 true (by decide)).2.2).1⟩

/-! ### Rendered payloads are the literal markup strings -/

theorem renderPayload_example :
    renderPayload [XElem.wf "a".toList "T1".toList [], XElem.noTs "bad".toList [],
      XElem.wf "b".toList "T2".toList []] =
      ("<event name=\"a\" timestamp=\"T1\"></event>" ++
       "<event name=\"bad\"></event>" ++
       "<event name=\"b\" timestamp=\"T2\"></event>").toList := by decide

theorem renderElem_swapped_example :
    renderElem (XElem.swapped "x".toList "TX".toList []) =
      ("<event timestamp=\"TX\" name=\"x\"></event>").toList := by decide

end Profiler
